import Mathlib

set_option maxRecDepth 20000

/-!
Verification development for the xde disassembler (x86/x86_64 recursive /
linear-sweep disassembly engine).  The definitions below are a shallow
embedding of the Python sources:

* xde/em_shadow_memory.py  (sparse shadow memory over external-memory lists)
* xde/em_graph.py          (directed graph with transpose and attributes)
* xde/classifiers/         (naive code/data classifier)
* xde/instruction.py       (instruction wrapper: displacements, next address)
* xde/disassembler.py      (the disassembly engine and its public queries)

Python machine integers are unbounded, so addresses are modelled as Int and
mark bytes as Nat with bitwise operations.  Fallible operations (shadow
memory raising RuntimeError, decode errors, unknown instruction forms)
return Option or run in an Except-based state monad.  Python while loops
are modelled with explicit fuel; for loops over concrete ranges or lists
are structural recursion.

External collaborators (the S.EX. loader and the pyxed decoder) are not
part of this repository; they are modelled from the spec's interface
contracts (sections, entry/exit/function/relocation tables, byte reads,
and a stateful decode cursor).  Their models are marked in doc comments.
-/

/-! Shadow memory marks, from em_shadow_memory.py. -/

def M_NONE : Nat := 0

def M_ANALYZED : Nat := 1

def M_CODE : Nat := 2

def M_BASIC_BLOCK_LEADER : Nat := 4

def M_FUNCTION : Nat := 8

def M_DATA : Nat := 16

def M_HEAD : Nat := 32

def M_RELOCATED : Nat := 64

def M_RELOCATED_LEAF : Nat := 128

/-- Shadow memory state: the merged memory ranges (pairs are inclusive at
both ends, exactly as the constructor consumes them) and one shadow byte
list per range.  The dirname / file backing of pyrsistence is irrelevant
to the semantics and is omitted. -/
structure EMShadowMemory where
  memory_ranges : List (Int × Int)
  shadows : List (List Nat)
deriving DecidableEq, Inhabited, Repr

/-- Scan for the first merged range that the new range can be merged with,
mirroring the for/else loop of EMShadowMemory._merge_memory_ranges: the
matched element is replaced in place and scanning stops. -/
def mergeScan (new : Int × Int) : List (Int × Int) → Option (List (Int × Int))
  | [] => none
  | (s, e) :: rest =>
      if (new.1 ≤ s ∧ s ≤ new.2) ∨ (new.1 ≤ e + 1 ∧ e + 1 ≤ new.2) then
        some ((min new.1 s, max new.2 e) :: rest)
      else
        (mergeScan new rest).map (fun tail => (s, e) :: tail)

/-- Lexicographic insertion for the final sorted() call. -/
def insertPair (p : Int × Int) : List (Int × Int) → List (Int × Int)
  | [] => [p]
  | q :: rest =>
      if p.1 < q.1 ∨ (p.1 = q.1 ∧ p.2 ≤ q.2) then p :: q :: rest
      else q :: insertPair p rest

def sortPairs (l : List (Int × Int)) : List (Int × Int) :=
  l.foldr insertPair []

/-- Translation of EMShadowMemory._merge_memory_ranges. -/
def _merge_memory_ranges (memory_ranges : List (Int × Int)) : List (Int × Int) :=
  sortPairs (memory_ranges.foldl
    (fun acc r =>
      match mergeScan r acc with
      | some acc2 => acc2
      | none => acc ++ [r])
    [])

/-- Translation of EMShadowMemory._make_shadow_memory: a list of
end - start + 1 bytes, all M_NONE. -/
def _make_shadow_memory (memory_range : Int × Int) : List Nat :=
  List.replicate (memory_range.2 - memory_range.1 + 1).toNat M_NONE

/-- Translation of EMShadowMemory.__init__ (the on-disk container is
dropped, only the semantic content is kept). -/
def EMShadowMemory.init (memory_ranges : List (Int × Int)) : EMShadowMemory :=
  let merged := _merge_memory_ranges memory_ranges
  { memory_ranges := merged, shadows := merged.map _make_shadow_memory }

/-- Scan of self.memory_ranges in _get_shadow_memory_coordinates.  Note the
offset returned for a hit is end_address - address (this is exactly what
the source computes). -/
def coordScan (address : Int) : List (Int × Int) → Nat → Option (Nat × Nat)
  | [], _ => none
  | (s, e) :: rest, i =>
      if s ≤ address ∧ address ≤ e then some (i, (e - address).toNat)
      else coordScan address rest (i + 1)

/-- Translation of EMShadowMemory._get_shadow_memory_coordinates.  A none
result models the RuntimeError raised for an address that is not backed
by the shadow memory. -/
def _get_shadow_memory_coordinates (sm : EMShadowMemory) (address : Int) :
    Option (Nat × Nat) :=
  coordScan address sm.memory_ranges 0

/-- Translation of EMShadowMemory._mark. -/
def _mark (sm : EMShadowMemory) (address : Int) (mark : Nat) :
    Option EMShadowMemory := do
  let (i, j) ← _get_shadow_memory_coordinates sm address
  let shadow := sm.shadows.getD i []
  let new_mark := shadow.getD j 0
  if new_mark &&& mark ≠ mark then
    pure { sm with shadows := sm.shadows.set i (shadow.set j (new_mark ||| mark)) }
  else
    pure sm

/-- Body of the while loop of _mark_range: cnt slots starting at index j
are or-ed with the mark (the index moves upward through the slot list,
exactly like the j += 1 walk of the source). -/
def markSlots (shadow : List Nat) (j : Nat) (cnt : Nat) (mark : Nat) : List Nat :=
  match cnt with
  | 0 => shadow
  | c + 1 =>
      let v := shadow.getD j 0
      let shadow2 := if v &&& mark ≠ mark then shadow.set j (v ||| mark) else shadow
      markSlots shadow2 (j + 1) c mark

/-- Translation of EMShadowMemory._mark_range. -/
def _mark_range (sm : EMShadowMemory) (address : Int) (length : Nat) (mark : Nat) :
    Option EMShadowMemory := do
  let (i, j) ← _get_shadow_memory_coordinates sm address
  let shadow := sm.shadows.getD i []
  let limit := min (j + length) shadow.length
  pure { sm with shadows := sm.shadows.set i (markSlots shadow j (limit - j) mark) }

/-- Translation of EMShadowMemory._is_marked. -/
def _is_marked (sm : EMShadowMemory) (address : Int) (mark : Nat) : Option Bool := do
  let (i, j) ← _get_shadow_memory_coordinates sm address
  let shadow := sm.shadows.getD i []
  pure ((shadow.getD j 0) &&& mark == mark)

/-- Body of the counting loop of _is_marked_range: number of leading slots
from index j upward that carry all bits of the mark. -/
def countSlots (shadow : List Nat) (j : Nat) (cnt : Nat) (mark : Nat) : Nat :=
  match cnt with
  | 0 => 0
  | c + 1 =>
      if (shadow.getD j 0) &&& mark == mark then 1 + countSlots shadow (j + 1) c mark
      else 0

/-- Translation of EMShadowMemory._is_marked_range. -/
def _is_marked_range (sm : EMShadowMemory) (address : Int) (length : Nat)
    (mark : Nat) : Option Nat := do
  let (i, j) ← _get_shadow_memory_coordinates sm address
  let shadow := sm.shadows.getD i []
  let limit := min (j + length) shadow.length
  pure (countSlots shadow j (limit - j) mark)

/-- Translation of EMShadowMemory.mark_as_analyzed. -/
def mark_as_analyzed (sm : EMShadowMemory) (address : Int) (length : Nat := 1) :
    Option EMShadowMemory :=
  _mark_range sm address length M_ANALYZED

/-- Translation of EMShadowMemory.mark_as_code: HEAD and CODE on the first
byte, then a CODE range starting at address + 1 of length length - 1. -/
def mark_as_code (sm : EMShadowMemory) (address : Int) (length : Nat := 1) :
    Option EMShadowMemory := do
  let sm ← _mark sm address (M_HEAD ||| M_CODE)
  _mark_range sm (address + 1) (length - 1) M_CODE

/-- Translation of EMShadowMemory.mark_as_basic_block_leader. -/
def mark_as_basic_block_leader (sm : EMShadowMemory) (address : Int) :
    Option EMShadowMemory :=
  _mark sm address (M_HEAD ||| M_CODE ||| M_BASIC_BLOCK_LEADER)

/-- Translation of EMShadowMemory.mark_as_function. -/
def mark_as_function (sm : EMShadowMemory) (address : Int) :
    Option EMShadowMemory :=
  _mark sm address (M_HEAD ||| M_CODE ||| M_BASIC_BLOCK_LEADER ||| M_FUNCTION)

/-- Translation of EMShadowMemory.mark_as_data. -/
def mark_as_data (sm : EMShadowMemory) (address : Int) (length : Nat := 1) :
    Option EMShadowMemory := do
  let sm ← _mark sm address (M_HEAD ||| M_DATA)
  _mark_range sm (address + 1) (length - 1) M_DATA

/-- Translation of EMShadowMemory.mark_as_head. -/
def mark_as_head (sm : EMShadowMemory) (address : Int) : Option EMShadowMemory :=
  _mark sm address M_HEAD

/-- Translation of EMShadowMemory.mark_as_relocated. -/
def mark_as_relocated (sm : EMShadowMemory) (address : Int) : Option EMShadowMemory :=
  _mark sm address M_RELOCATED

/-- Translation of EMShadowMemory.mark_as_relocated_leaf. -/
def mark_as_relocated_leaf (sm : EMShadowMemory) (address : Int) :
    Option EMShadowMemory :=
  _mark sm address M_RELOCATED_LEAF

/-- Translation of EMShadowMemory.is_marked_as_analyzed (a count of leading
analyzed bytes, used for truthiness by the engine). -/
def is_marked_as_analyzed (sm : EMShadowMemory) (address : Int)
    (length : Nat := 1) : Option Nat :=
  _is_marked_range sm address length M_ANALYZED

/-- Translation of EMShadowMemory.is_marked_as_code. -/
def is_marked_as_code (sm : EMShadowMemory) (address : Int) (length : Nat := 1) :
    Option Nat :=
  _is_marked_range sm address length M_CODE

/-- Translation of EMShadowMemory.is_marked_as_basic_block_leader. -/
def is_marked_as_basic_block_leader (sm : EMShadowMemory) (address : Int) :
    Option Bool :=
  _is_marked sm address M_BASIC_BLOCK_LEADER

/-- Translation of EMShadowMemory.is_marked_as_function. -/
def is_marked_as_function (sm : EMShadowMemory) (address : Int) : Option Bool :=
  _is_marked sm address M_FUNCTION

/-- Translation of EMShadowMemory.is_marked_as_data. -/
def is_marked_as_data (sm : EMShadowMemory) (address : Int) (length : Nat := 1) :
    Option Nat :=
  _is_marked_range sm address length M_DATA

/-- Translation of EMShadowMemory.is_marked_as_head. -/
def is_marked_as_head (sm : EMShadowMemory) (address : Int) : Option Bool :=
  _is_marked sm address M_HEAD

/-- Translation of EMShadowMemory.is_marked_as_relocated. -/
def is_marked_as_relocated (sm : EMShadowMemory) (address : Int) : Option Bool :=
  _is_marked sm address M_RELOCATED

/-- Translation of EMShadowMemory.is_marked_as_relocated_leaf. -/
def is_marked_as_relocated_leaf (sm : EMShadowMemory) (address : Int) :
    Option Bool :=
  _is_marked sm address M_RELOCATED_LEAF

/-- Convenience for theorem statements: the boolean value of _is_marked,
false when the address is not backed at all. -/
def isMarkedB (sm : EMShadowMemory) (address : Int) (mark : Nat) : Bool :=
  (_is_marked sm address mark).getD false

/-! Concrete shadow memory used to settle claim C1. -/

def c1shadow0 : EMShadowMemory := EMShadowMemory.init [(0, 9)]

def c1shadow1 : EMShadowMemory := (mark_as_code c1shadow0 5 4).getD c1shadow0

/-- C1 (code bug witness): over the covered range [0, 9], mark_as_code(5, 4)
succeeds, sets HEAD|CODE on 5 and then marks the CODE range DESCENDING from
6 (addresses 6, 5, 4) because _get_shadow_memory_coordinates maps an address
to offset end_address - address, so the upward slot walk of _mark_range
moves downward through addresses.  The claimed ascending behavior would set
CODE on 5, 6, 7, 8 and leave 4 untouched; instead 4 is marked and 7, 8 are
not, and the is_marked_as_code round trip reports only 2 of the 4 bytes. -/
theorem C1_mark_as_code_descends :
    (mark_as_code c1shadow0 5 4).isSome = true ∧
    isMarkedB c1shadow1 5 (M_HEAD ||| M_CODE) = true ∧
    isMarkedB c1shadow1 6 M_CODE = true ∧
    isMarkedB c1shadow1 4 M_CODE = true ∧
    isMarkedB c1shadow1 7 M_CODE = false ∧
    isMarkedB c1shadow1 8 M_CODE = false ∧
    (is_marked_as_code c1shadow1 5 4).getD 0 = 2 := by
  decide

/-! Directed graph with transpose and attributes, from em_graph.py.  The
EMDict containers become association lists (insertion ordered); successor
and predecessor sets become duplicate-free lists in insertion order.  Only
the operations the disassembler calls are embedded.  Vertices are
addresses (Int); the only attribute ever stored is the boolean edge
attribute named predicate. -/

structure EMGraph where
  _graph : List (Int × List Int)
  _transpose_graph : List (Int × List Int)
  _vertex_attributes : List (Int × List (String × Bool))
  _edge_attributes : List ((Int × Int) × List (String × Bool))
deriving DecidableEq, Inhabited, Repr

/-- Association-list lookup (dict __getitem__ / in). -/
def lookupA {α β : Type} [DecidableEq α] : List (α × β) → α → Option β
  | [], _ => none
  | (k, v) :: rest, a => if k = a then some v else lookupA rest a

/-- Association-list store (dict __setitem__): replace in place or append. -/
def setA {α β : Type} [DecidableEq α] : List (α × β) → α → β → List (α × β)
  | [], a, b => [(a, b)]
  | (k, v) :: rest, a, b =>
      if k = a then (a, b) :: rest else (k, v) :: setA rest a b

def EMGraph.empty : EMGraph := ⟨[], [], [], []⟩

/-- Translation of EMGraph.add_vertex. -/
def add_vertex (g : EMGraph) (vertex : Int) : EMGraph :=
  if (lookupA g._graph vertex).isSome then g
  else
    { g with
      _graph := setA g._graph vertex [],
      _transpose_graph := setA g._transpose_graph vertex [],
      _vertex_attributes := setA g._vertex_attributes vertex [] }

/-- Translation of EMGraph.get_successors (empty when the vertex is
absent). -/
def get_successors (g : EMGraph) (vertex : Int) : List Int :=
  (lookupA g._graph vertex).getD []

/-- Translation of EMGraph.get_predecessors. -/
def get_predecessors (g : EMGraph) (vertex : Int) : List Int :=
  (lookupA g._transpose_graph vertex).getD []

/-- Translation of EMGraph.add_edge: ensure the endpoints, and only if the
edge is new, extend the successor and predecessor sets and initialize the
edge attribute dictionary. -/
def add_edge (g : EMGraph) (edge : Int × Int) : EMGraph :=
  let tail := edge.1
  let head := edge.2
  let g := add_vertex g tail
  let g := add_vertex g head
  let successors := (lookupA g._graph tail).getD []
  if head ∈ successors then g
  else
    let g := { g with _graph := setA g._graph tail (successors ++ [head]) }
    let predecessors := (lookupA g._transpose_graph head).getD []
    let g := { g with _transpose_graph := setA g._transpose_graph head (predecessors ++ [tail]) }
    { g with _edge_attributes := setA g._edge_attributes edge [] }

/-- Translation of EMGraph._add_attribute for the edge-attribute table:
updates happen only when the subject already has an attribute dictionary
(add_edge initializes one); the returned previous value is dropped since
no caller uses it. -/
def _add_attribute (attributes : List ((Int × Int) × List (String × Bool)))
    (subject : Int × Int) (name : String) (value : Bool) :
    List ((Int × Int) × List (String × Bool)) :=
  match lookupA attributes subject with
  | none => attributes
  | some subject_attributes => setA attributes subject (setA subject_attributes name value)

/-- Translation of EMGraph.add_edge_attribute. -/
def add_edge_attribute (g : EMGraph) (edge : Int × Int) (name : String)
    (value : Bool) : EMGraph :=
  { g with _edge_attributes := _add_attribute g._edge_attributes edge name value }

/-- Translation of EMGraph.get_edge_attribute (none when either the edge
has no attribute dictionary or the name is unset). -/
def get_edge_attribute (g : EMGraph) (edge : Int × Int) (name : String) :
    Option Bool :=
  match lookupA g._edge_attributes edge with
  | none => none
  | some subject_attributes => lookupA subject_attributes name

/-- Convenience for theorem statements: edge membership in the forward
adjacency. -/
def edgeMem (g : EMGraph) (edge : Int × Int) : Bool :=
  decide (edge.2 ∈ get_successors g edge.1)

/-! Instruction model.  The decoder (pyxed) is external to the repository;
an instruction is modelled from the spec's decoder contract, keeping
exactly the queries the engine and the wrapper use: category, iform,
iclass, length, branch displacement with the FAR_XFER attribute, memory
operands, the native-width immediate, and whether the written-register
set contains the program counter (writesPC, the one abstraction of
get_written_registers the dispatch needs). -/

inductive XedCategory
  | CALL
  | UNCOND_BR
  | COND_BR
  | RET
  | INTERRUPT
  | SYSCALL
  | SYSRET
  | INVALID
  | DATAXFER
  | BINARY
  | LOGICAL
  | WIDENOP
deriving DecidableEq, Repr

inductive XedIForm
  | CALL_NEAR_RELBRz
  | CALL_NEAR_RELBRd
  | CALL_NEAR_MEMv
  | CALL_FAR_MEMp2
  | CALL_NEAR_GPRv
  | CALL_FAR_PTRp_IMMw
  | JMP_RELBRb
  | JMP_RELBRd
  | JMP_RELBRz
  | JMP_MEMv
  | JMP_FAR_MEMp2
  | JMP_GPRv
  | JMP_FAR_PTRp_IMMw
  | XABORT_IMMb
  | XEND
  | OTHER_IFORM
deriving DecidableEq, Repr

inductive IClassKind
  | CALL_NEAR
  | RET_NEAR
  | PUSH
  | POP
  | CMP
  | TEST
  | SETBE
  | SETB
  | SETLE
  | SETL
  | SETNBE
  | SETNB
  | SETNLE
  | SETNL
  | SETNS
  | SETNZ
  | SETS
  | SETZ
  | JB
  | JBE
  | JL
  | JLE
  | JMP
  | JNB
  | JNBE
  | JNL
  | JNLE
  | JNO
  | JNP
  | JNS
  | JNZ
  | JO
  | JP
  | JS
  | JZ
  | LEA
  | SUB
  | AND
  | XOR
  | MOV
  | MOVSX
  | MOVZX
  | FLD
  | FLDZ
  | FST
  | FSTP
  | ADD
  | NOP
  | OTHER
deriving DecidableEq, Repr

/-- Segment register of a memory operand, collapsed to what the wrapper
distinguishes: SS, FS, GS or anything else. -/
inductive SegRegKind
  | SS
  | FS
  | GS
  | OTHERSEG
deriving DecidableEq, Repr

/-- Base or index register of a memory operand, collapsed to what the
wrapper distinguishes: the program counter, XED_REG_INVALID, or any other
register. -/
inductive BaseRegKind
  | PC
  | INVALIDREG
  | OTHERBASE
deriving DecidableEq, Repr

structure MemOp where
  seg_reg : SegRegKind
  base_reg : BaseRegKind
  index_reg : BaseRegKind
  scale : Int
  displacement : Int
  length : Nat
deriving DecidableEq, Repr

structure Instr where
  runtime_address : Int
  length : Nat
  category : XedCategory
  iform : XedIForm
  iclassVal : IClassKind
  writesPC : Bool
  branch_displacement_raw : Int
  far_xfer : Bool
  memops : List MemOp
  immediate_width_bits : Nat
  unsigned_immediate : Int
deriving DecidableEq, Repr

/-- Translation of Instruction.get_next_instruction_address. -/
def get_next_instruction_address (insn : Instr) : Int :=
  insn.runtime_address + insn.length

/-- The arithmetic of Instruction.get_branch_displacement for the non-far
case.  On unbounded Python integers, -(d & 0x80000000) + (d & 0x7fffffff)
equals the value of d mod 2^32 sign-extended from 32 bits, which is the
form used here. -/
def signExtend32 (d : Int) : Int :=
  let m := d.emod 4294967296
  if m ≥ 2147483648 then m - 4294967296 else m

/-- Translation of Instruction.get_branch_displacement: absolute for far
transfers; otherwise a 32-bit sign-extended displacement relative to the
next instruction address. -/
def get_branch_displacement (insn : Instr) : Int :=
  let displacement := insn.branch_displacement_raw
  if insn.far_xfer then displacement
  else signExtend32 displacement + get_next_instruction_address insn

/-- Translation of Instruction.get_memory_displacement: an absolute address
when computable (PC-relative or no base register, and no SS/FS/GS segment
override), none otherwise. -/
def get_memory_displacement (insn : Instr) (m : MemOp) : Option Int :=
  let d0 :=
    if m.base_reg = BaseRegKind.PC then
      some (m.displacement + get_next_instruction_address insn)
    else if m.base_reg ≠ BaseRegKind.INVALIDREG then none
    else some m.displacement
  if m.seg_reg = SegRegKind.SS ∨ m.seg_reg = SegRegKind.FS ∨ m.seg_reg = SegRegKind.GS then
    none
  else d0

/-! Classifier, from classifiers/naive.py and classifiers/classifier.py. -/

def PROLOGUE_ICLASSES : List IClassKind :=
  [IClassKind.CALL_NEAR, IClassKind.RET_NEAR, IClassKind.PUSH, IClassKind.POP,
   IClassKind.CMP, IClassKind.TEST, IClassKind.SETBE, IClassKind.SETB,
   IClassKind.SETLE, IClassKind.SETL, IClassKind.SETNBE, IClassKind.SETNB,
   IClassKind.SETNLE, IClassKind.SETNL, IClassKind.SETNS, IClassKind.SETNZ,
   IClassKind.SETS, IClassKind.SETZ, IClassKind.JB, IClassKind.JBE,
   IClassKind.JL, IClassKind.JLE, IClassKind.JMP, IClassKind.JNB,
   IClassKind.JNBE, IClassKind.JNL, IClassKind.JNLE, IClassKind.JNO,
   IClassKind.JNP, IClassKind.JNS, IClassKind.JNZ, IClassKind.JO,
   IClassKind.JP, IClassKind.JS, IClassKind.JZ, IClassKind.LEA,
   IClassKind.SUB, IClassKind.AND, IClassKind.XOR, IClassKind.MOV,
   IClassKind.MOVSX, IClassKind.MOVZX, IClassKind.FLD, IClassKind.FLDZ,
   IClassKind.FST, IClassKind.FSTP]

def WINDOW_SIZE : Nat := 4

/-- Scanning loop of naive.is_code: r starts True and the loop breaks with
False at the first examined instruction whose iclass is outside the
prologue set. -/
def prologueWindowScan : List Instr → Bool
  | [] => true
  | insn :: rest =>
      if insn.iclassVal ∈ PROLOGUE_ICLASSES then prologueWindowScan rest else false

/-- Translation of naive.is_code: examine at most WINDOW_SIZE instructions. -/
def naive_is_code (insns : List Instr) : Bool :=
  prologueWindowScan (insns.take WINDOW_SIZE)

def CLASSIFIER_NAIVE : Nat := 0

structure Classifier where
  classifier_id : Nat
deriving DecidableEq, Repr

/-- Translation of Classifier.is_code (dispatch on the backend id; r starts
False and only the naive backend is implemented). -/
def Classifier.is_code (c : Classifier) (insns : List Instr) : Bool :=
  if c.classifier_id = CLASSIFIER_NAIVE then naive_is_code insns else false

/-- Translation of Classifier.is_data: the exact opposite of is_code. -/
def Classifier.is_data (c : Classifier) (insns : List Instr) : Bool :=
  !(c.is_code insns)

/-! Image provider and decoder cursor.  Modelled from the spec: the S.EX.
loader exposes sections (with start, exclusive end, flags and bytes),
entry/function/exit/relocation address tables and random byte access; the
pyxed decoder is a stateful cursor (itext, itext_offset, runtime_address)
whose decode() yields the instruction at runtime_address + itext_offset
and advances the offset by its length, returns end-of-stream at or past
the itext length, and raises InvalidInstructionError on undecodable
bytes.  The per-address decode outcome table insnAt is the abstraction of
the instruction bytes. -/

structure SectionFlags where
  loaded : Bool
  readable : Bool
  writable : Bool
  executable : Bool
deriving DecidableEq, Repr

structure Section where
  start_address : Int
  end_address : Int
  flags : SectionFlags
  data : List Nat
deriving DecidableEq, Repr

inductive CPUMode
  | REAL
  | PROTECTED_32BIT
  | PROTECTED_64BIT
deriving DecidableEq, Repr

structure Image where
  mode : CPUMode
  sections : List Section
  entry_points : List Int
  functions : List Int
  exit_points : List Int
  relocations : List Int
  insnAt : Int → Option Instr

/-- Modelled from the spec: get_section_for_address_range returns the
section containing the byte range, or absent. -/
def sectionScan (sections : List Section) (address : Int) (length : Nat) :
    Option Section :=
  match sections with
  | [] => none
  | s :: rest =>
      if s.start_address ≤ address ∧ address + length ≤ s.end_address then some s
      else sectionScan rest address length

def get_section_for_address_range (img : Image) (address : Int)
    (length : Nat := 1) : Option Section :=
  sectionScan img.sections address length

/-- Translation of Disassembler.is_memory_readable. -/
def is_memory_readable (img : Image) (address : Int) (length : Nat := 1) : Bool :=
  match get_section_for_address_range img address length with
  | some sec => sec.flags.readable
  | none => false

/-- Translation of Disassembler.is_memory_writable. -/
def is_memory_writable (img : Image) (address : Int) (length : Nat := 1) : Bool :=
  match get_section_for_address_range img address length with
  | some sec => sec.flags.writable
  | none => false

/-- Translation of Disassembler.is_memory_executable. -/
def is_memory_executable (img : Image) (address : Int) (length : Nat := 1) : Bool :=
  match get_section_for_address_range img address length with
  | some sec => sec.flags.executable
  | none => false

/-- Translation of Disassembler.is_memory_mapped. -/
def is_memory_mapped (img : Image) (address : Int) (length : Nat := 1) : Bool :=
  match get_section_for_address_range img address length with
  | some sec => sec.flags.loaded
  | none => false

def sliceBytes (data : List Nat) (off len : Nat) : List Nat :=
  (data.drop off).take len

/-- Translation of Disassembler.read_memory over the spec-modelled loader
read: the byte slice of the containing section, absent when unmapped. -/
def read_memory (img : Image) (address : Int) (length : Nat) :
    Option (List Nat) :=
  match get_section_for_address_range img address length with
  | none => none
  | some s => some (sliceBytes s.data (address - s.start_address).toNat length)

/-- Little-endian value of a byte list (struct.unpack of unsigned
little-endian fields). -/
def leValue : List Nat → Nat
  | [] => 0
  | b :: rest => b + 256 * leValue rest

structure DecoderState where
  itextLen : Nat
  itext_offset : Int
  runtime_address : Int
deriving DecidableEq, Inhabited, Repr

inductive DecRes
  | eof
  | insn (i : Instr)
  | errInvalidInstruction
  | errInvalidOffset
deriving DecidableEq, Repr

/-- Modelled from the spec: pyxed Decoder.decode().  End-of-stream at or
past the itext length, InvalidOffsetError for a negative cursor,
InvalidInstructionError where the byte stream is undecodable, otherwise
the instruction at runtime_address + itext_offset with the cursor
advanced by its length.  The decoder state is unchanged on errors. -/
def pyxed_decode (img : Image) (d : DecoderState) : DecRes × DecoderState :=
  if d.itext_offset < 0 then (DecRes.errInvalidOffset, d)
  else if d.itext_offset ≥ (d.itextLen : Int) then (DecRes.eof, d)
  else
    let ra := d.runtime_address + d.itext_offset
    match img.insnAt ra with
    | none => (DecRes.errInvalidInstruction, d)
    | some i0 =>
        let i := { i0 with runtime_address := ra }
        (DecRes.insn i, { d with itext_offset := d.itext_offset + i.length })

/-! Engine state and monad, from disassembler.py. -/

structure BasicBlock where
  start_address : Int
  end_address : Int
  instructions : List Int
deriving DecidableEq, Inhabited, Repr

structure DState where
  shadow : EMShadowMemory
  code_xrefs : EMGraph
  data_xrefs : EMGraph
  basic_blocks : List (Int × BasicBlock)
  cfg : EMGraph
  decoder : DecoderState
deriving DecidableEq, Inhabited, Repr

inductive EngineErr
  | addressOutOfRange
  | unknownControlFlow
  | internalError
  | attributeError
  | outOfFuel
deriving DecidableEq, Repr


/-- Engine computations pass the store state explicitly and may fail; this
is the explicit state-passing form of the mutating Disassembler methods. -/
abbrev EngineRes (α : Type) := Except EngineErr (α × DState)

/-- Sequencing of engine steps (call the next step with the updated state,
propagate failures). -/
def bindE {α β : Type} (r : EngineRes α) (f : α → DState → EngineRes β) :
    EngineRes β :=
  match r with
  | Except.error e => Except.error e
  | Except.ok (a, st) => f a st

def pureE {α : Type} (a : α) (st : DState) : EngineRes α :=
  Except.ok (a, st)

@[simp]
theorem bindE_ok {α β : Type} (a : α) (st : DState)
    (f : α → DState → EngineRes β) : bindE (Except.ok (a, st)) f = f a st := rfl

@[simp]
theorem bindE_error {α β : Type} (e : EngineErr)
    (f : α → DState → EngineRes β) :
    bindE (Except.error e : EngineRes α) f = Except.error e := rfl

/-- Apply a shadow-memory mutation; a none result is the RuntimeError the
shadow memory raises for unbacked addresses, which the engine never
catches. -/
def liftShadow (f : EMShadowMemory → Option EMShadowMemory) (st : DState) :
    EngineRes Unit :=
  match f st.shadow with
  | none => Except.error EngineErr.addressOutOfRange
  | some sm => Except.ok ((), { st with shadow := sm })

/-- Run a shadow-memory query, propagating its RuntimeError the same way. -/
def queryShadow {α : Type} (f : EMShadowMemory → Option α) (st : DState) :
    EngineRes α :=
  match f st.shadow with
  | none => Except.error EngineErr.addressOutOfRange
  | some a => Except.ok (a, st)

def modifyCodeXrefs (f : EMGraph → EMGraph) (st : DState) : EngineRes Unit :=
  Except.ok ((), { st with code_xrefs := f st.code_xrefs })

def modifyDataXrefs (f : EMGraph → EMGraph) (st : DState) : EngineRes Unit :=
  Except.ok ((), { st with data_xrefs := f st.data_xrefs })

def modifyCfg (f : EMGraph → EMGraph) (st : DState) : EngineRes Unit :=
  Except.ok ((), { st with cfg := f st.cfg })

/-- Translation of Disassembler.__init__ for the stores: shadow memory over
the section address pairs, empty graphs and basic-block table, and a
decoder cursor that has not been pointed anywhere yet. -/
def initState (img : Image) : DState :=
  { shadow := EMShadowMemory.init
      (img.sections.map fun s => (s.start_address, s.end_address)),
    code_xrefs := EMGraph.empty,
    data_xrefs := EMGraph.empty,
    basic_blocks := [],
    cfg := EMGraph.empty,
    decoder := { itextLen := 0, itext_offset := 0, runtime_address := 0 } }

/-- Point the decoder at a section, as _do_recursive_disassembly,
_do_linear_sweep_disassembly and get_instruction all do: itext becomes the
section bytes, the offset the distance into the section, and the runtime
address the section start. -/
def setDecoderFor (sec : Section) (address : Int) (st : DState) :
    EngineRes Unit :=
  Except.ok ((),
    { st with
      decoder :=
        { itextLen := sec.data.length,
          itext_offset := address - sec.start_address,
          runtime_address := sec.start_address } })

/-- Run one decode step on the engine decoder. -/
def decodeStep (img : Image) (st : DState) : EngineRes DecRes :=
  match pyxed_decode img st.decoder with
  | (res, d2) => Except.ok (res, { st with decoder := d2 })

/-- Body of the while loop of _do_linear_sweep_disassembly: the collected
instruction list and the error flag.  Decode errors, an INVALID category,
overlap with a DATA-marked byte, and a truthy branch displacement outside
executable memory set the error flag and stop; end-of-stream and
RET/UNCOND_BR stop cleanly. -/
def probeLoop (img : Image) : Nat → List Instr → DState → EngineRes (Bool × List Instr)
  | 0, _, _ => Except.error EngineErr.outOfFuel
  | fuel + 1, insns, st =>
      bindE (decodeStep img st) fun res st =>
      match res with
      | DecRes.errInvalidInstruction => pureE (true, insns) st
      | DecRes.errInvalidOffset => pureE (true, insns) st
      | DecRes.eof => pureE (false, insns) st
      | DecRes.insn insn =>
          if insn.category = XedCategory.INVALID then pureE (true, insns) st
          else
            let insns := insns ++ [insn]
            bindE (queryShadow (fun sm =>
                is_marked_as_data sm insn.runtime_address insn.length) st)
              fun dataCount st =>
            if dataCount ≠ 0 then pureE (true, insns) st
            else
              let displacement := get_branch_displacement insn
              if displacement ≠ 0 ∧ ¬ is_memory_executable img displacement then
                pureE (true, insns) st
              else if insn.category = XedCategory.UNCOND_BR ∨
                  insn.category = XedCategory.RET then
                pureE (false, insns) st
              else
                probeLoop img fuel insns st

/-- Translation of Disassembler._do_linear_sweep_disassembly: save the
decoder state, sweep, restore the decoder state, then let the classifier
veto a clean stop.  A missing section for the start address models the
AttributeError Python raises on section.data when the loader returns
None. -/
def _do_linear_sweep_disassembly (img : Image) (fuel : Nat) (address : Int)
    (st : DState) : EngineRes Bool :=
  match get_section_for_address_range img address with
  | none => Except.error EngineErr.attributeError
  | some sec =>
      let saved := st.decoder
      bindE (setDecoderFor sec address st) fun _ st =>
      bindE (probeLoop img fuel [] st) fun (error, insns) st =>
      let st := { st with decoder := saved }
      let error := if error then error else (Classifier.mk CLASSIFIER_NAIVE).is_data insns
      pureE (!error) st

/-- Translation of Disassembler._is_code: not DATA-marked, inside
executable memory, and the linear sweep probe accepts. -/
def _is_code (img : Image) (fuel : Nat) (address : Int) (st : DState) :
    EngineRes Bool :=
  bindE (queryShadow (fun sm => is_marked_as_data sm address) st)
    fun dataCount st =>
  if dataCount = 0 ∧ is_memory_executable img address then
    _do_linear_sweep_disassembly img fuel address st
  else
    pureE false st

/-- Loop body of _analyze_normal_instruction_memory_operands over the
memory operand list. -/
def analyzeNormalMemops (img : Image) (insn : Instr) :
    List MemOp → DState → EngineRes Unit
  | [], st => pureE () st
  | m :: rest, st =>
      bindE
        (match get_memory_displacement insn m with
        | some displacement =>
            if displacement ≠ 0 ∧ is_memory_mapped img displacement then
              bindE (modifyDataXrefs
                  (fun g => add_edge g (insn.runtime_address, displacement)) st)
                fun _ st =>
              if m.length ∉ [4, 6, 8, 10] then
                bindE (liftShadow
                    (fun sm => mark_as_analyzed sm displacement m.length) st)
                  fun _ st =>
                liftShadow (fun sm => mark_as_data sm displacement m.length) st
              else pureE () st
            else pureE () st
        | none => pureE () st) fun _ st =>
      analyzeNormalMemops img insn rest st

/-- Translation of Disassembler._analyze_normal_instruction_memory_operands:
for every memory operand with a computable, truthy, mapped displacement,
add a data xref, and mark the displacement as data unless the operand
length is one of the indirect-branch lengths 4, 6, 8, 10. -/
def _analyze_normal_instruction_memory_operands (img : Image) (insn : Instr)
    (st : DState) : EngineRes Unit :=
  analyzeNormalMemops img insn insn.memops st

def nativeWidthBits : CPUMode → Nat
  | CPUMode.REAL => 16
  | CPUMode.PROTECTED_32BIT => 32
  | CPUMode.PROTECTED_64BIT => 64

/-- Translation of Disassembler._disassemble_normal_instruction: the
native-width immediate heuristic (gated by relocation leaves and the
linear sweep probe), the memory operand analysis, and the fall-through
code xref. -/
def _disassemble_normal_instruction (img : Image) (fuel : Nat) (insn : Instr)
    (st : DState) : EngineRes Unit :=
  let runtime_address := insn.runtime_address
  let width := nativeWidthBits img.mode
  bindE
    (if insn.immediate_width_bits = width then
      let immediate := insn.unsigned_immediate
      if is_memory_executable img immediate then
        let is_relocatable := decide (img.relocations.length > 0)
        bindE (queryShadow (fun sm => is_marked_as_relocated_leaf sm immediate) st)
          fun leaf st =>
        if leaf || !is_relocatable then
          bindE (_is_code img fuel immediate st) fun c st =>
          if c then
            modifyDataXrefs (fun g => add_edge g (runtime_address, immediate)) st
          else pureE () st
        else pureE () st
      else pureE () st
    else pureE () st) fun _ st =>
  bindE (_analyze_normal_instruction_memory_operands img insn st) fun _ st =>
  let next_address := get_next_instruction_address insn
  modifyCodeXrefs (fun g => add_edge g (runtime_address, next_address)) st

/-- Value of struct.unpack(fmt, data)[-1] for the four jump-table element
formats: the last tuple component is the full field for the u32/u64
formats and the address half (bytes 2 onward) for the far-pointer pair
formats. -/
def jumpTableElementValue (length : Nat) (data : List Nat) : Int :=
  if length = 4 then (leValue (sliceBytes data 0 4) : Nat)
  else if length = 6 then (leValue (sliceBytes data 2 4) : Nat)
  else if length = 8 then (leValue (sliceBytes data 0 8) : Nat)
  else (leValue (sliceBytes data 2 8) : Nat)

/-- Translation of Disassembler._get_jump_table_element: format selection
by operand length (anything else is the KeyError the comment says cannot
happen), the RELOCATED requirement on the slot, the unpack taking the
last tuple component (the address part of the far-pointer formats), the
RELOCATED_LEAF requirement on the value, and the executability check. -/
def _get_jump_table_element (img : Image) (address : Int) (length : Nat)
    (st : DState) : EngineRes (Option Int) :=
  if length ≠ 4 ∧ length ≠ 6 ∧ length ≠ 8 ∧ length ≠ 10 then
    Except.error EngineErr.internalError
  else
    let is_relocatable := decide (img.relocations.length > 0)
    bindE (queryShadow (fun sm => is_marked_as_relocated sm address) st)
      fun relocated st =>
    if relocated || !is_relocatable then
      match read_memory img address length with
      | none => Except.error EngineErr.internalError
      | some data =>
          if data.length ≠ length then Except.error EngineErr.internalError
          else
            let element : Int := jumpTableElementValue length data
            bindE (queryShadow (fun sm => is_marked_as_relocated_leaf sm element) st)
              fun leaf st =>
            if leaf || !is_relocatable then
              if is_memory_executable img element then pureE (some element) st
              else pureE none st
            else pureE none st
    else
      pureE none st

/-- While loop of _analyze_flow_control_instruction_memory_operand: unpack
successive jump table elements from the displacement.  An exit-point slot
yields a direct code xref; otherwise a recovered element yields a code
xref and a BB_LEADER mark, and a falsy element (absent or zero) stops.
Without an index register only one element is consumed; otherwise the
displacement advances by the scale. -/
def walkerLoop (img : Image) (insn : Instr) (index_reg : BaseRegKind)
    (scale : Int) (length : Nat) : Nat → Int → DState → EngineRes Unit
  | 0, _, _ => Except.error EngineErr.outOfFuel
  | fuel + 1, displacement, st =>
      if is_memory_mapped img displacement then
        if displacement ∉ img.exit_points then
          bindE (_get_jump_table_element img displacement length st)
            fun element st =>
          match element with
          | none => pureE () st
          | some e =>
              if e = 0 then pureE () st
              else
                bindE (modifyCodeXrefs
                    (fun g => add_edge g (insn.runtime_address, e)) st)
                  fun _ st =>
                bindE (liftShadow (fun sm => mark_as_basic_block_leader sm e) st)
                  fun _ st =>
                if index_reg = BaseRegKind.INVALIDREG then pureE () st
                else walkerLoop img insn index_reg scale length fuel
                  (displacement + scale) st
        else
          bindE (modifyCodeXrefs
              (fun g => add_edge g (insn.runtime_address, displacement)) st)
            fun _ st =>
          if index_reg = BaseRegKind.INVALIDREG then pureE () st
          else walkerLoop img insn index_reg scale length fuel
            (displacement + scale) st
      else pureE () st

/-- Translation of Disassembler._analyze_flow_control_instruction_memory_operand
for one operand (the source re-reads the operand attributes it walks
with; an uncomputable displacement is never mapped, so the loop does not
start). -/
def _analyze_flow_control_instruction_memory_operand (img : Image) (fuel : Nat)
    (insn : Instr) (m : MemOp) (st : DState) : EngineRes Unit :=
  match get_memory_displacement insn m with
  | none => pureE () st
  | some displacement =>
      walkerLoop img insn m.index_reg m.scale m.length fuel displacement st

/-- Loop body of _analyze_flow_control_instruction_memory_operands. -/
def analyzeFlowMemops (img : Image) (fuel : Nat) (insn : Instr) :
    List MemOp → DState → EngineRes Unit
  | [], st => pureE () st
  | m :: rest, st =>
      bindE
        (match get_memory_displacement insn m with
        | some displacement =>
            if displacement ≠ 0 ∧ is_memory_mapped img displacement then
              bindE (modifyDataXrefs
                  (fun g => add_edge g (insn.runtime_address, displacement)) st)
                fun _ st =>
              _analyze_flow_control_instruction_memory_operand img fuel insn m st
            else pureE () st
        | none => pureE () st) fun _ st =>
      analyzeFlowMemops img fuel insn rest st

/-- Translation of
Disassembler._analyze_flow_control_instruction_memory_operands. -/
def _analyze_flow_control_instruction_memory_operands (img : Image) (fuel : Nat)
    (insn : Instr) (st : DState) : EngineRes Unit :=
  analyzeFlowMemops img fuel insn insn.memops st

/-- Translation of Disassembler._disassemble_unconditional_jump_instruction. -/
def _disassemble_unconditional_jump_instruction (img : Image) (fuel : Nat)
    (insn : Instr) (st : DState) : EngineRes Unit :=
  let runtime_address := insn.runtime_address
  let iform := insn.iform
  if iform = XedIForm.JMP_RELBRb ∨ iform = XedIForm.JMP_RELBRd ∨
      iform = XedIForm.JMP_RELBRz then
    let displacement := get_branch_displacement insn
    if is_memory_executable img displacement then
      bindE (modifyCodeXrefs (fun g => add_edge g (runtime_address, displacement)) st)
        fun _ st =>
      liftShadow (fun sm => mark_as_basic_block_leader sm displacement) st
    else pureE () st
  else if iform = XedIForm.JMP_MEMv ∨ iform = XedIForm.JMP_FAR_MEMp2 then
    _analyze_flow_control_instruction_memory_operands img fuel insn st
  else if iform = XedIForm.JMP_GPRv then pureE () st
  else if iform = XedIForm.JMP_FAR_PTRp_IMMw then
    let displacement := get_branch_displacement insn
    if is_memory_executable img displacement then
      bindE (modifyCodeXrefs (fun g => add_edge g (runtime_address, displacement)) st)
        fun _ st =>
      liftShadow (fun sm => mark_as_basic_block_leader sm displacement) st
    else pureE () st
  else if iform = XedIForm.XABORT_IMMb then pureE () st
  else Except.error EngineErr.unknownControlFlow

/-- Translation of Disassembler._disassemble_conditional_jump_instruction:
for every form but XEND, a predicate=true edge to an executable branch
displacement with a BB_LEADER mark; always a predicate=false edge to the
next instruction address with a BB_LEADER mark. -/
def _disassemble_conditional_jump_instruction (img : Image) (insn : Instr)
    (st : DState) : EngineRes Unit :=
  let runtime_address := insn.runtime_address
  bindE
    (if insn.iform ≠ XedIForm.XEND then
      let displacement := get_branch_displacement insn
      if is_memory_executable img displacement then
        let edge := (runtime_address, displacement)
        bindE (modifyCodeXrefs (fun g => add_edge g edge) st) fun _ st =>
        bindE (modifyCodeXrefs (fun g => add_edge_attribute g edge "predicate" true) st)
          fun _ st =>
        liftShadow (fun sm => mark_as_basic_block_leader sm displacement) st
      else pureE () st
    else pureE () st) fun _ st =>
  let next_address := get_next_instruction_address insn
  let edge := (runtime_address, next_address)
  bindE (modifyCodeXrefs (fun g => add_edge g edge) st) fun _ st =>
  bindE (modifyCodeXrefs (fun g => add_edge_attribute g edge "predicate" false) st)
    fun _ st =>
  liftShadow (fun sm => mark_as_basic_block_leader sm next_address) st

/-- The loop that marks all callees as functions after resolving the
memory operands of an indirect call, from
Disassembler._disassemble_call_instruction. -/
def markSuccessorsAsFunctions : List Int → DState → EngineRes Unit
  | [], st => pureE () st
  | address :: rest, st =>
      bindE (liftShadow (fun sm => mark_as_function sm address) st) fun _ st =>
      markSuccessorsAsFunctions rest st

/-- Translation of Disassembler._disassemble_call_instruction. -/
def _disassemble_call_instruction (img : Image) (fuel : Nat) (insn : Instr)
    (st : DState) : EngineRes Unit :=
  let runtime_address := insn.runtime_address
  let iform := insn.iform
  bindE
    (if iform = XedIForm.CALL_NEAR_RELBRz ∨ iform = XedIForm.CALL_NEAR_RELBRd then
      let displacement := get_branch_displacement insn
      if displacement ≠ get_next_instruction_address insn ∧
          is_memory_executable img displacement then
        bindE (modifyCodeXrefs (fun g => add_edge g (runtime_address, displacement)) st)
          fun _ st =>
        liftShadow (fun sm => mark_as_function sm displacement) st
      else pureE () st
    else if iform = XedIForm.CALL_NEAR_MEMv ∨ iform = XedIForm.CALL_FAR_MEMp2 then
      bindE (_analyze_flow_control_instruction_memory_operands img fuel insn st)
        fun _ st =>
      markSuccessorsAsFunctions (get_successors st.code_xrefs runtime_address) st
    else if iform = XedIForm.CALL_NEAR_GPRv then pureE () st
    else if iform = XedIForm.CALL_FAR_PTRp_IMMw then
      let displacement := get_branch_displacement insn
      if is_memory_executable img displacement then
        liftShadow (fun sm => mark_as_function sm displacement) st
      else pureE () st
    else Except.error EngineErr.unknownControlFlow) fun _ st =>
  let next_address := get_next_instruction_address insn
  modifyCodeXrefs (fun g => add_edge g (runtime_address, next_address)) st

/-- Translation of Disassembler._disassemble_flow_control_instruction. -/
def _disassemble_flow_control_instruction (img : Image) (fuel : Nat)
    (insn : Instr) (st : DState) : EngineRes Unit :=
  let category := insn.category
  if category = XedCategory.CALL then _disassemble_call_instruction img fuel insn st
  else if category = XedCategory.UNCOND_BR then
    _disassemble_unconditional_jump_instruction img fuel insn st
  else if category = XedCategory.COND_BR then
    _disassemble_conditional_jump_instruction img insn st
  else if category = XedCategory.RET then pureE () st
  else if category = XedCategory.INTERRUPT then pureE () st
  else if category = XedCategory.SYSCALL then pureE () st
  else if category = XedCategory.SYSRET then pureE () st
  else Except.error EngineErr.unknownControlFlow

/-- Translation of Disassembler._disassemble_instruction: decode, dispatch
on whether the program counter is written, then mark the instruction
bytes as analyzed code.  Decode errors and end-of-stream are returned to
the caller (in Python the errors propagate as exceptions). -/
def _disassemble_instruction (img : Image) (fuel : Nat) (st : DState) :
    EngineRes DecRes :=
  bindE (decodeStep img st) fun res st =>
  match res with
  | DecRes.insn insn =>
      bindE
        (if insn.writesPC then _disassemble_flow_control_instruction img fuel insn st
        else _disassemble_normal_instruction img fuel insn st) fun _ st =>
      bindE (liftShadow (fun sm => mark_as_analyzed sm insn.runtime_address insn.length) st)
        fun _ st =>
      bindE (liftShadow (fun sm => mark_as_code sm insn.runtime_address insn.length) st)
        fun _ st =>
      pureE (DecRes.insn insn) st
  | other => pureE other st

/-- Push-loop of _do_recursive_disassembly: each code-xref successor of
the just-disassembled instruction that is not yet analyzed goes on the
stack (the stack is a list whose head is the top). -/
def pushUnanalyzed : List Int → List Int → DState → EngineRes (List Int)
  | [], stack, st => pureE stack st
  | address :: rest, stack, st =>
      bindE (queryShadow (fun sm => is_marked_as_analyzed sm address) st)
        fun cnt st =>
      pushUnanalyzed rest (if cnt ≠ 0 then stack else address :: stack) st

/-- Inner while-True loop of _do_recursive_disassembly.  Note the faithful
detail that the two except branches only set the error flag and do NOT
leave the loop: after a decode error the loop body runs again on the
unchanged decoder state. -/
def sweepLoop (img : Image) : Nat → List Int → Bool → DState →
    EngineRes (List Int × Bool)
  | 0, _, _, _ => Except.error EngineErr.outOfFuel
  | fuel + 1, stack, error, st =>
      bindE (_disassemble_instruction img fuel st) fun res st =>
      match res with
      | DecRes.eof => pureE (stack, error) st
      | DecRes.errInvalidInstruction => sweepLoop img fuel stack true st
      | DecRes.errInvalidOffset => sweepLoop img fuel stack true st
      | DecRes.insn insn =>
          bindE (pushUnanalyzed (get_successors st.code_xrefs insn.runtime_address)
              stack st)
            fun stack st =>
          if insn.category = XedCategory.RET ∨
              insn.category = XedCategory.UNCOND_BR then
            pureE (stack, error) st
          else
            let next := get_next_instruction_address insn
            bindE (queryShadow (fun sm => is_marked_as_analyzed sm next) st)
              fun cnt st =>
            if cnt ≠ 0 then pureE (stack, error) st
            else sweepLoop img fuel stack error st

/-- Outer stack loop of _do_recursive_disassembly: pop a seed, skip it when
already analyzed or an exit point, otherwise point the decoder at it, run
the inner sweep, and mark the seed a basic block leader only when no
decode error was flagged. -/
def recLoop (img : Image) (fuel : Nat) : Nat → List Int → DState → EngineRes Unit
  | 0, _, _ => Except.error EngineErr.outOfFuel
  | n + 1, stack, st =>
      match stack with
      | [] => pureE () st
      | address :: rest =>
          let start_address := address
          bindE (queryShadow (fun sm => is_marked_as_analyzed sm address) st)
            fun cnt st =>
          if cnt ≠ 0 ∨ address ∈ img.exit_points then recLoop img fuel n rest st
          else
            match get_section_for_address_range img address with
            | none => Except.error EngineErr.attributeError
            | some sec =>
                bindE (setDecoderFor sec address st) fun _ st =>
                bindE (sweepLoop img fuel rest false st) fun (stack2, error) st =>
                bindE
                  (if !error then
                    liftShadow (fun sm => mark_as_basic_block_leader sm start_address) st
                  else pureE () st) fun _ st =>
                recLoop img fuel n stack2 st

/-- Translation of Disassembler._do_recursive_disassembly. -/
def _do_recursive_disassembly (img : Image) (fuel : Nat) (address : Int)
    (st : DState) : EngineRes Unit :=
  recLoop img fuel fuel [address] st

/-- Sequential iteration over an address list. -/
def forEachAddr (f : Int → DState → EngineRes Unit) :
    List Int → DState → EngineRes Unit
  | [], st => pureE () st
  | a :: rest, st =>
      bindE (f a st) fun _ st =>
      forEachAddr f rest st

/-- Translation of Disassembler._disassemble_entry_points. -/
def _disassemble_entry_points (img : Image) (fuel : Nat) (st : DState) :
    EngineRes Unit :=
  forEachAddr
    (fun entry_point st =>
      bindE (liftShadow (fun sm => mark_as_function sm entry_point) st) fun _ st =>
      _do_recursive_disassembly img fuel entry_point st)
    img.entry_points st

/-- Translation of Disassembler._disassemble_functions: probe every
declared function address with _is_code, and afterwards mark every exit
point analyzed and a function. -/
def _disassemble_functions (img : Image) (fuel : Nat) (st : DState) :
    EngineRes Unit :=
  bindE
    (forEachAddr
      (fun address st =>
        bindE (_is_code img fuel address st) fun c st =>
        if c then
          bindE (liftShadow (fun sm => mark_as_function sm address) st) fun _ st =>
          _do_recursive_disassembly img fuel address st
        else pureE () st)
      img.functions st) fun _ st =>
  forEachAddr
    (fun address st =>
      bindE (liftShadow (fun sm => mark_as_analyzed sm address) st) fun _ st =>
      liftShadow (fun sm => mark_as_function sm address) st)
    img.exit_points st

def execSections (img : Image) : List Section :=
  img.sections.filter fun s => s.flags.executable

def intRange (s e : Int) : List Int :=
  (List.range (e - s).toNat).map fun k => s + (k : Int)

/-- Iteration over all addresses of a section list (the xrange walks of
the relocated / deferred / orphan phases). -/
def forEachSectionAddr (f : Int → DState → EngineRes Unit) :
    List Section → DState → EngineRes Unit
  | [], st => pureE () st
  | s :: rest, st =>
      bindE (forEachAddr f (intRange s.start_address s.end_address) st) fun _ st =>
      forEachSectionAddr f rest st

/-- Translation of Disassembler._disassemble_relocated. -/
def _disassemble_relocated (img : Image) (fuel : Nat) (st : DState) :
    EngineRes Unit :=
  forEachSectionAddr
    (fun address st =>
      bindE (queryShadow (fun sm => is_marked_as_relocated_leaf sm address) st)
        fun leaf st =>
      if leaf then
        bindE (_is_code img fuel address st) fun c st =>
        if c then
          bindE (liftShadow (fun sm => mark_as_basic_block_leader sm address) st)
            fun _ st =>
          _do_recursive_disassembly img fuel address st
        else pureE () st
      else pureE () st)
    (execSections img) st

/-- One address step of the deferred fixed-point pass; the done flag is
cleared whenever a not-yet-analyzed basic block leader is disassembled. -/
def deferredScanAddrs (img : Image) (fuel : Nat) :
    List Int → Bool → DState → EngineRes Bool
  | [], done, st => pureE done st
  | address :: rest, done, st =>
      bindE (queryShadow (fun sm => is_marked_as_analyzed sm address) st)
        fun cnt st =>
      if cnt = 0 then
        bindE (queryShadow (fun sm => is_marked_as_basic_block_leader sm address) st)
          fun leader st =>
        if leader then
          bindE (_do_recursive_disassembly img fuel address st) fun _ st =>
          deferredScanAddrs img fuel rest false st
        else deferredScanAddrs img fuel rest done st
      else deferredScanAddrs img fuel rest done st

/-- One full pass of the deferred fixed-point loop over the executable
sections. -/
def deferredPass (img : Image) (fuel : Nat) :
    List Section → Bool → DState → EngineRes Bool
  | [], done, st => pureE done st
  | s :: rest, done, st =>
      bindE (deferredScanAddrs img fuel (intRange s.start_address s.end_address) done st)
        fun done st =>
      deferredPass img fuel rest done st

/-- Fixed-point iteration of _disassemble_deferred. -/
def deferredLoop (img : Image) (fuel : Nat) : Nat → DState → EngineRes Unit
  | 0, _ => Except.error EngineErr.outOfFuel
  | n + 1, st =>
      bindE (deferredPass img fuel (execSections img) true st) fun done st =>
      if done then pureE () st else deferredLoop img fuel n st

/-- Translation of Disassembler._disassemble_deferred. -/
def _disassemble_deferred (img : Image) (fuel : Nat) (st : DState) :
    EngineRes Unit :=
  deferredLoop img fuel fuel st

/-- Translation of Disassembler._disassemble_orphan: a relocated leaf that
is a basic block leader with no code-xref predecessors becomes a
function entry point. -/
def _disassemble_orphan (img : Image) (st : DState) : EngineRes Unit :=
  forEachSectionAddr
    (fun address st =>
      bindE (queryShadow (fun sm => is_marked_as_relocated_leaf sm address) st)
        fun leaf st =>
      if leaf then
        bindE (queryShadow (fun sm => is_marked_as_basic_block_leader sm address) st)
          fun leader st =>
        if leader then
          if (get_predecessors st.code_xrefs address).length = 0 then
            liftShadow (fun sm => mark_as_function sm address) st
          else pureE () st
        else pureE () st
      else pureE () st)
    (execSections img) st

/-- Native pointer size of the relocation formats =H / =I / =Q. -/
def relocFmtSize (mode : CPUMode) : Nat :=
  match mode with
  | CPUMode.REAL => 2
  | CPUMode.PROTECTED_32BIT => 4
  | CPUMode.PROTECTED_64BIT => 8

/-- Translation of Disassembler._analyze_relocation: mark the slot analyzed
and relocated, unpack the pointer, recurse while it is itself a
relocation address, and mark the chain leaf. -/
def _analyze_relocation (img : Image) (size : Nat) : Nat → Int → DState →
    EngineRes Unit
  | 0, _, _ => Except.error EngineErr.outOfFuel
  | fuel + 1, address, st =>
      if is_memory_mapped img address size then
        bindE (liftShadow (fun sm => mark_as_analyzed sm address) st) fun _ st =>
        bindE (liftShadow (fun sm => mark_as_relocated sm address) st) fun _ st =>
        match read_memory img address size with
        | none => Except.error EngineErr.internalError
        | some data =>
            if data.length ≠ size then Except.error EngineErr.internalError
            else
              let element : Int := (leValue data : Nat)
              if is_memory_mapped img element then
                if element ∈ img.relocations then
                  _analyze_relocation img size fuel element st
                else
                  liftShadow (fun sm => mark_as_relocated_leaf sm element) st
              else pureE () st
      else pureE () st

/-- Inner marking loop of the relocated-data discovery: mark data and
advance by the pointer size while the current address is relocated and
inside the section; returns the advanced cursor. -/
def relocDataInner (size : Nat) (endAddr : Int) : Nat → Int → DState →
    EngineRes Int
  | 0, _, _ => Except.error EngineErr.outOfFuel
  | fuel + 1, address, st =>
      bindE (queryShadow (fun sm => is_marked_as_relocated sm address) st)
        fun r st =>
      if r ∧ address < endAddr then
        bindE (liftShadow (fun sm => mark_as_data sm address) st) fun _ st =>
        relocDataInner size endAddr fuel (address + size) st
      else pureE address st

/-- Outer scan of the relocated-data discovery: three consecutive
pointer-aligned relocated addresses start a data run. -/
def relocDataScan (size : Nat) (endAddr : Int) : Nat → Int → DState →
    EngineRes Unit
  | 0, _, _ => Except.error EngineErr.outOfFuel
  | fuel + 1, address, st =>
      if address < endAddr then
        bindE (queryShadow (fun sm => is_marked_as_relocated sm address) st)
          fun r1 st =>
        if r1 then
          bindE (queryShadow (fun sm => is_marked_as_relocated sm (address + size)) st)
            fun r2 st =>
          if r2 then
            bindE (queryShadow
                (fun sm => is_marked_as_relocated sm (address + size + size)) st)
              fun r3 st =>
            if r3 then
              bindE (relocDataInner size endAddr fuel address st) fun address2 st =>
              relocDataScan size endAddr fuel address2 st
            else relocDataScan size endAddr fuel (address + 1) st
          else relocDataScan size endAddr fuel (address + 1) st
        else relocDataScan size endAddr fuel (address + 1) st
      else pureE () st

/-- Section iteration of the relocated-data discovery. -/
def relocDataSections (size : Nat) (fuel : Nat) : List Section → DState →
    EngineRes Unit
  | [], st => pureE () st
  | s :: rest, st =>
      bindE (relocDataScan size s.end_address fuel s.start_address st) fun _ st =>
      relocDataSections size fuel rest st

/-- Translation of Disassembler._analyze_relocations. -/
def _analyze_relocations (img : Image) (fuel : Nat) (st : DState) :
    EngineRes Unit :=
  let size := relocFmtSize img.mode
  bindE (forEachAddr (fun address st => _analyze_relocation img size fuel address st)
      img.relocations st) fun _ st =>
  relocDataSections size fuel img.sections st

/-- Leader-search cursor of _build_basic_block_set_for_range. -/
def bbFindLeader (endAddr : Int) : Nat → Int → DState → EngineRes (Option Int)
  | 0, _, _ => Except.error EngineErr.outOfFuel
  | fuel + 1, address, st =>
      if address ≤ endAddr then
        bindE (queryShadow (fun sm => is_marked_as_basic_block_leader sm address) st)
          fun leader st =>
        if leader then pureE (some address) st
        else bbFindLeader endAddr fuel (address + 1) st
      else pureE none st

/-- Instruction-collecting cursor of _build_basic_block_set_for_range: walk
while the byte is code and not a new leader, collecting HEAD addresses;
returns the block end cursor and the instruction list. -/
def bbCollect (endAddr : Int) : Nat → Int → List Int → DState →
    EngineRes (Int × List Int)
  | 0, _, _, _ => Except.error EngineErr.outOfFuel
  | fuel + 1, address, instructions, st =>
      if address ≤ endAddr then
        bindE (queryShadow (fun sm => is_marked_as_code sm address) st)
          fun code st =>
        if code ≠ 0 then
          bindE (queryShadow (fun sm => is_marked_as_basic_block_leader sm address) st)
            fun leader st =>
          if !leader then
            bindE (queryShadow (fun sm => is_marked_as_head sm address) st)
              fun head st =>
            bbCollect endAddr fuel (address + 1)
              (if head then instructions ++ [address] else instructions) st
          else pureE (address, instructions) st
        else pureE (address, instructions) st
      else pureE (address, instructions) st

/-- Outer cursor loop of _build_basic_block_set_for_range. -/
def bbRangeLoop (endAddr : Int) : Nat → Int → DState → EngineRes Unit
  | 0, _, _ => Except.error EngineErr.outOfFuel
  | fuel + 1, address, st =>
      if address ≤ endAddr then
        bindE (bbFindLeader endAddr fuel address st) fun leaderPos st =>
        match leaderPos with
        | none => pureE () st
        | some bb_start_address =>
            bindE (bbCollect endAddr fuel (bb_start_address + 1) [bb_start_address] st)
              fun (bb_end_address, instructions) st =>
            bindE (pureE ()
                { st with
                  basic_blocks := setA st.basic_blocks bb_start_address
                    ⟨bb_start_address, bb_end_address, instructions⟩ })
              fun _ st =>
            bbRangeLoop endAddr fuel bb_end_address st
      else pureE () st

/-- Range iteration of _build_basic_block_set. -/
def bbRanges (fuel : Nat) : List (Int × Int) → DState → EngineRes Unit
  | [], st => pureE () st
  | (s, e) :: rest, st =>
      bindE (bbRangeLoop e fuel s st) fun _ st =>
      bbRanges fuel rest st

/-- Translation of Disassembler._build_basic_block_set (one bbRangeLoop per
shadow memory range). -/
def _build_basic_block_set (fuel : Nat) (st : DState) : EngineRes Unit :=
  bbRanges fuel st.shadow.memory_ranges st

/-- Translation of Disassembler.get_instruction: decode on demand when the
address is marked code and head; decode failures yield absent. -/
def get_instruction (img : Image) (address : Int) (st : DState) :
    EngineRes (Option Instr) :=
  bindE (queryShadow (fun sm => is_marked_as_code sm address) st) fun code st =>
  if code ≠ 0 then
    bindE (queryShadow (fun sm => is_marked_as_head sm address) st) fun head st =>
    if head then
      match get_section_for_address_range img address with
      | none => Except.error EngineErr.attributeError
      | some sec =>
          bindE (setDecoderFor sec address st) fun _ st =>
          bindE (decodeStep img st) fun res st =>
          match res with
          | DecRes.insn i => pureE (some i) st
          | _ => pureE none st
    else pureE none st
  else pureE none st

/-- Successor loop of _build_cfg for a block whose last instruction writes
the program counter: CFG edges only to successors that are basic block
leaders and not function entry points. -/
def cfgSuccLoop (blockStart : Int) : List Int → DState → EngineRes Unit
  | [], st => pureE () st
  | successor :: rest, st =>
      bindE (queryShadow (fun sm => is_marked_as_basic_block_leader sm successor) st)
        fun leader st =>
      bindE
        (if leader then
          bindE (queryShadow (fun sm => is_marked_as_function sm successor) st)
            fun f st =>
          if !f then modifyCfg (fun g => add_edge g (blockStart, successor)) st
          else pureE () st
        else pureE () st) fun _ st =>
      cfgSuccLoop blockStart rest st

/-- Block loop of _build_cfg.  For a last instruction that does not write
the program counter the edge to the physically bordering block is added
with no further checks. -/
def cfgBlockLoop (img : Image) : List (Int × BasicBlock) → DState → EngineRes Unit
  | [], st => pureE () st
  | (_, block) :: rest, st =>
      if block.start_address ∈ img.exit_points then cfgBlockLoop img rest st
      else
        match block.instructions.getLast? with
        | none => Except.error EngineErr.internalError
        | some address =>
            bindE (get_instruction img address st) fun insn? st =>
            match insn? with
            | none => Except.error EngineErr.internalError
            | some insn =>
                bindE
                  (if insn.writesPC then
                    cfgSuccLoop block.start_address
                      (get_successors st.code_xrefs address) st
                  else
                    modifyCfg (fun g => add_edge g (block.start_address, block.end_address)) st)
                  fun _ st =>
                cfgBlockLoop img rest st

/-- Translation of Disassembler._build_cfg. -/
def _build_cfg (img : Image) (st : DState) : EngineRes Unit :=
  cfgBlockLoop img st.basic_blocks st

/-- Translation of Disassembler.disassemble: the phase sequence. -/
def disassemble (img : Image) (fuel : Nat) (st : DState) : EngineRes Unit :=
  bindE (_analyze_relocations img fuel st) fun _ st =>
  bindE (_disassemble_entry_points img fuel st) fun _ st =>
  bindE (_disassemble_functions img fuel st) fun _ st =>
  bindE (_disassemble_relocated img fuel st) fun _ st =>
  bindE (_disassemble_deferred img fuel st) fun _ st =>
  bindE (_disassemble_orphan img st) fun _ st =>
  bindE (_build_basic_block_set fuel st) fun _ st =>
  _build_cfg img st

/-- Attribute lookup of self.shadow.start_address in
Disassembler.get_basic_block.  The EMShadowMemory class never assigns a
start_address attribute (it defines memory_ranges, dirname and shadows),
so in Python this lookup raises AttributeError; the model therefore
returns none for every shadow memory value. -/
def shadowStartAddressAttr (_sm : EMShadowMemory) : Option Int := none

/-- Attribute lookup of self.shadow.end_address in
Disassembler.get_basic_block; like start_address it is never defined on
EMShadowMemory. -/
def shadowEndAddressAttr (_sm : EMShadowMemory) : Option Int := none

/-- Downward walk of get_basic_block to the nearest basic block leader. -/
def gbbWalk : Nat → Int → DState → EngineRes Int
  | 0, _, _ => Except.error EngineErr.outOfFuel
  | fuel + 1, address, st =>
      bindE (queryShadow (fun sm => is_marked_as_basic_block_leader sm address) st)
        fun leader st =>
      if leader then pureE address st else gbbWalk fuel (address - 1) st

/-- Translation of Disassembler.get_basic_block: guard the address against
self.shadow.start_address / end_address (attributes that do not exist on
EMShadowMemory, so the guard itself raises AttributeError), then walk
down to a leader and look the block up. -/
def get_basic_block (fuel : Nat) (address : Int) (st : DState) :
    EngineRes (Option BasicBlock) :=
  match shadowStartAddressAttr st.shadow with
  | none => Except.error EngineErr.attributeError
  | some start_address =>
      match shadowEndAddressAttr st.shadow with
      | none => Except.error EngineErr.attributeError
      | some end_address =>
          if start_address ≤ address ∧ address ≤ end_address then
            bindE (gbbWalk fuel address st) fun leaderAddr st =>
            match lookupA st.basic_blocks leaderAddr with
            | none => Except.error EngineErr.internalError
            | some b => pureE (some b) st
          else pureE none st

/-! Concrete scenario images.  The decode tables (insnAt) play the role of
the instruction bytes; the sections, entry points and other loader tables
are the test image. -/

def baseInstr : Instr :=
  { runtime_address := 0, length := 1, category := XedCategory.DATAXFER,
    iform := XedIForm.OTHER_IFORM, iclassVal := IClassKind.OTHER,
    writesPC := false, branch_displacement_raw := 0, far_xfer := false,
    memops := [], immediate_width_bits := 0, unsigned_immediate := 0 }

def flagsLRX : SectionFlags :=
  { loaded := true, readable := true, writable := false, executable := true }

def flagsLR : SectionFlags :=
  { loaded := true, readable := true, writable := false, executable := false }

def runDisassemble (img : Image) (fuel : Nat) : Except EngineErr DState :=
  match disassemble img fuel (initState img) with
  | Except.ok (_, st) => Except.ok st
  | Except.error e => Except.error e

def isOkD : Except EngineErr DState → Bool
  | Except.ok _ => true
  | Except.error _ => false

def getOkD (r : Except EngineErr DState) : DState :=
  match r with
  | Except.ok st => st
  | Except.error _ => default

/-! Scenario for C2 (and the C9 witness): a one-byte normal instruction at
0x1000 falling through to a declared function at 0x1001 (a RET). -/

def secC2 : Section :=
  { start_address := 0x1000, end_address := 0x1010, flags := flagsLRX,
    data := List.replicate 16 0 }

def c2insnAt : Int → Option Instr := fun a =>
  if a = 0x1000 then
    some { baseInstr with category := XedCategory.DATAXFER,
                          iclassVal := IClassKind.MOV }
  else if a = 0x1001 then
    some { baseInstr with category := XedCategory.RET, writesPC := true,
                          iclassVal := IClassKind.RET_NEAR }
  else none

def c2img : Image :=
  { mode := CPUMode.PROTECTED_32BIT, sections := [secC2],
    entry_points := [0x1000], functions := [0x1001], exit_points := [],
    relocations := [], insnAt := c2insnAt }

def c2final : DState := getOkD (runDisassemble c2img 40)

/-- C2 (counterexample): on the image whose entry point 0x1000 holds a
one-byte instruction that does not write the program counter, immediately
followed by a declared function at 0x1001, disassemble() completes and the
fall-through branch of _build_cfg adds the CFG edge (0x1000, 0x1001) with
no not-FUNCTION guard, although 0x1001 carries the FUNCTION mark: a CFG
edge into a FUNCTION-marked vertex exists after disassemble(). -/
theorem C2_cfg_fallthrough_edge_into_function :
    isOkD (runDisassemble c2img 40) = true ∧
    edgeMem c2final.cfg (0x1000, 0x1001) = true ∧
    isMarkedB c2final.shadow 0x1001 M_FUNCTION = true := by
  refine ⟨rfl, rfl, rfl⟩

/-! Scenario for C3: an address whose bytes never decode (the decoder
raises InvalidInstructionError at every decode attempt of the sweep). -/

def secC3 : Section :=
  { start_address := 0x1000, end_address := 0x1010, flags := flagsLRX,
    data := List.replicate 16 0 }

def c3img : Image :=
  { mode := CPUMode.PROTECTED_32BIT, sections := [secC3],
    entry_points := [0x1000], functions := [], exit_points := [],
    relocations := [], insnAt := fun _ => none }

/-- Engine state right after _do_recursive_disassembly pops the seed 0x1000
and points the decoder at its section. -/
def c3prep : DState :=
  { initState c3img with
    decoder := { itextLen := 16, itext_offset := 0, runtime_address := 0x1000 } }

theorem c3sweep_step (n : Nat) (stack : List Int) (b : Bool) :
    sweepLoop c3img (n + 1) stack b c3prep = sweepLoop c3img n stack true c3prep :=
  rfl

theorem c3sweep_diverges (n : Nat) :
    ∀ (stack : List Int) (b : Bool),
      sweepLoop c3img n stack b c3prep = Except.error EngineErr.outOfFuel := by
  induction n with
  | zero => intro stack b; rfl
  | succ n ih =>
      intro stack b
      rw [c3sweep_step]
      exact ih stack true

/-- Continuation of the outer recursive-disassembly loop after the inner
sweep of the seed 0x1000 in the C3 scenario. -/
def c3cont (n : Nat) : (List Int × Bool) → DState → EngineRes Unit :=
  fun r st =>
    bindE
      (if !r.2 then
        liftShadow (fun sm => mark_as_basic_block_leader sm 0x1000) st
      else pureE () st) fun _ st =>
    recLoop c3img (n + 1) n r.1 st

theorem c3outer_step (n : Nat) :
    _do_recursive_disassembly c3img (n + 1) 0x1000 (initState c3img) =
      bindE (sweepLoop c3img (n + 1) [] false c3prep) (c3cont n) :=
  rfl

/-- C3 (code bug): when the decoder raises InvalidInstructionError during
the inner linear sweep of _do_recursive_disassembly, the except branch
only sets the error flag and does not leave the while-True loop; since the
decoder state was not advanced, the next iteration re-raises at the same
offset forever.  For every fuel bound the inner sweep on the C3 scenario
runs out of fuel (first conjunct), and so does the whole
_do_recursive_disassembly call (second conjunct): the sweep never stops,
the engine never continues with the next stack entry, and no BB_LEADER
decision is ever reached, contradicting the claimed recovery. -/
theorem C3_decode_error_sweep_never_terminates :
    (∀ (n : Nat) (stack : List Int) (b : Bool),
      sweepLoop c3img n stack b c3prep = Except.error EngineErr.outOfFuel) ∧
    (∀ (fuel : Nat),
      _do_recursive_disassembly c3img fuel 0x1000 (initState c3img) =
        Except.error EngineErr.outOfFuel) := by
  constructor
  · intro n stack b
    exact c3sweep_diverges n stack b
  · intro fuel
    cases fuel with
    | zero => rfl
    | succ n =>
        rw [c3outer_step, c3sweep_diverges]
        rfl

/-! Scenario for C4: an indirect near call at 0x1000 of length 3 whose
single jump-table slot at 0x1010 holds the pointer 0x1003 = ra + len, the
fall-through address of the call itself. -/

def secC4 : Section :=
  { start_address := 0x1000, end_address := 0x1020, flags := flagsLRX,
    data := List.replicate 16 0 ++ [3, 16, 0, 0] ++ List.replicate 12 0 }

def c4insnAt : Int → Option Instr := fun a =>
  if a = 0x1000 then
    some { baseInstr with category := XedCategory.CALL,
                          iform := XedIForm.CALL_NEAR_MEMv,
                          length := 3, writesPC := true,
                          iclassVal := IClassKind.CALL_NEAR,
                          memops := [{ seg_reg := SegRegKind.OTHERSEG,
                                       base_reg := BaseRegKind.INVALIDREG,
                                       index_reg := BaseRegKind.INVALIDREG,
                                       scale := 4, displacement := 0x1010,
                                       length := 4 }] }
  else if a = 0x1003 then
    some { baseInstr with category := XedCategory.RET, writesPC := true,
                          iclassVal := IClassKind.RET_NEAR }
  else none

def c4img : Image :=
  { mode := CPUMode.PROTECTED_32BIT, sections := [secC4],
    entry_points := [0x1000], functions := [], exit_points := [],
    relocations := [], insnAt := c4insnAt }

def c4final : DState := getOkD (runDisassemble c4img 80)

/-- C4 (counterexample): the indirect CALL at ra = 0x1000 with length 3 is
disassembled; its memory-operand resolution recovers the jump-table
element 0x1003 = ra + len, and the marking loop then marks it FUNCTION.
So the fall-through successor ra + len IS marked FUNCTION by this rule
(the fall-through edge inserted afterwards is the same edge), refuting
the claim that ra + len is never marked FUNCTION. -/
theorem C4_call_rule_marks_fallthrough_function :
    (c4img.insnAt 0x1000).map (fun i => (i.iform, i.length)) =
      some (XedIForm.CALL_NEAR_MEMv, 3) ∧
    isOkD (runDisassemble c4img 80) = true ∧
    edgeMem c4final.code_xrefs (0x1000, 0x1000 + 3) = true ∧
    isMarkedB c4final.shadow (0x1000 + 3) M_FUNCTION = true := by
  refine ⟨rfl, rfl, rfl, rfl⟩

/-! Scenario for C5: an indirect jump at 0x1000 whose memory operand
displacement 0x2000 is a known exit point lying in a mapped but
non-executable data section. -/

def secC5X : Section :=
  { start_address := 0x1000, end_address := 0x1010, flags := flagsLRX,
    data := List.replicate 16 0 }

def secC5D : Section :=
  { start_address := 0x2000, end_address := 0x2010, flags := flagsLR,
    data := List.replicate 16 0 }

def c5insnAt : Int → Option Instr := fun a =>
  if a = 0x1000 then
    some { baseInstr with category := XedCategory.UNCOND_BR,
                          iform := XedIForm.JMP_MEMv,
                          length := 2, writesPC := true,
                          iclassVal := IClassKind.JMP,
                          memops := [{ seg_reg := SegRegKind.OTHERSEG,
                                       base_reg := BaseRegKind.INVALIDREG,
                                       index_reg := BaseRegKind.INVALIDREG,
                                       scale := 4, displacement := 0x2000,
                                       length := 4 }] }
  else none

def c5img : Image :=
  { mode := CPUMode.PROTECTED_32BIT, sections := [secC5X, secC5D],
    entry_points := [0x1000], functions := [], exit_points := [0x2000],
    relocations := [], insnAt := c5insnAt }

def c5final : DState := getOkD (runDisassemble c5img 40)

/-- C5 (counterexample): the jump-table walker reaches the exit-point
branch for the displacement 0x2000 (an import-thunk slot) and emits the
code xref (0x1000, 0x2000) with only an is_memory_mapped guard; 0x2000
lies in the non-executable data section, refuting the claim that every
code xref emitted by the walker points into an executable section. -/
theorem C5_walker_exit_point_xref_not_executable :
    (0x2000 : Int) ∈ c5img.exit_points ∧
    isOkD (runDisassemble c5img 40) = true ∧
    edgeMem c5final.code_xrefs (0x1000, 0x2000) = true ∧
    is_memory_executable c5img 0x2000 = false := by
  refine ⟨by decide, rfl, rfl, rfl⟩

/-! Scenario for C6: a conditional branch at 0x1000 of length 2 whose raw
branch displacement is 0, so its absolute taken target equals its own
next-instruction address 0x1002. -/

def secC6 : Section :=
  { start_address := 0x1000, end_address := 0x1010, flags := flagsLRX,
    data := List.replicate 16 0 }

def c6insnAt : Int → Option Instr := fun a =>
  if a = 0x1000 then
    some { baseInstr with category := XedCategory.COND_BR,
                          iform := XedIForm.OTHER_IFORM,
                          length := 2, writesPC := true,
                          iclassVal := IClassKind.JZ,
                          branch_displacement_raw := 0 }
  else if a = 0x1002 then
    some { baseInstr with category := XedCategory.RET, writesPC := true,
                          iclassVal := IClassKind.RET_NEAR }
  else none

def c6img : Image :=
  { mode := CPUMode.PROTECTED_32BIT, sections := [secC6],
    entry_points := [0x1000], functions := [], exit_points := [],
    relocations := [], insnAt := c6insnAt }

def c6final : DState := getOkD (runDisassemble c6img 40)

/-- The decoded conditional branch of the C6 scenario, as the engine sees
it (runtime address filled in by the decoder). -/
def c6insn : Instr :=
  { baseInstr with runtime_address := 0x1000, category := XedCategory.COND_BR,
                   iform := XedIForm.OTHER_IFORM, length := 2,
                   writesPC := true, iclassVal := IClassKind.JZ,
                   branch_displacement_raw := 0 }

/-- C6 (counterexample): for the conditional branch at 0x1000 whose taken
target equals its next-instruction address 0x1002, the two add_edge calls
collapse into one edge and the second predicate write overwrites the
first, leaving exactly ONE code-xref successor whose predicate attribute
is false, refuting the claimed two successors with predicate true and
false. -/
theorem C6_cond_branch_to_next_single_edge :
    get_branch_displacement c6insn = get_next_instruction_address c6insn ∧
    is_memory_executable c6img (get_branch_displacement c6insn) = true ∧
    isOkD (runDisassemble c6img 40) = true ∧
    (get_successors c6final.code_xrefs 0x1000).length = 1 ∧
    get_edge_attribute c6final.code_xrefs (0x1000, 0x1002) "predicate" =
      some false := by
  refine ⟨rfl, rfl, rfl, rfl, rfl⟩

/-! Scenario for C7: a one-byte normal instruction at 0x1000 whose memory
operand (length 1) resolves to its own address 0x1000, so the operand
marking writes DATA and the instruction marking writes CODE on the same
byte. -/

def secC7 : Section :=
  { start_address := 0x1000, end_address := 0x1010, flags := flagsLRX,
    data := List.replicate 16 0 }

def c7insnAt : Int → Option Instr := fun a =>
  if a = 0x1000 then
    some { baseInstr with category := XedCategory.DATAXFER,
                          iclassVal := IClassKind.MOV,
                          memops := [{ seg_reg := SegRegKind.OTHERSEG,
                                       base_reg := BaseRegKind.INVALIDREG,
                                       index_reg := BaseRegKind.INVALIDREG,
                                       scale := 0, displacement := 0x1000,
                                       length := 1 }] }
  else if a = 0x1001 then
    some { baseInstr with category := XedCategory.RET, writesPC := true,
                          iclassVal := IClassKind.RET_NEAR }
  else none

def c7img : Image :=
  { mode := CPUMode.PROTECTED_32BIT, sections := [secC7],
    entry_points := [0x1000], functions := [], exit_points := [],
    relocations := [], insnAt := c7insnAt }

def c7final : DState := getOkD (runDisassemble c7img 40)

/-- C7 (counterexample): disassemble() completes on the C7 image and the
byte at 0x1000 carries the CODE and the DATA mark simultaneously:
_analyze_normal_instruction_memory_operands marked the displacement
0x1000 as data (operand length 1 is not an indirect-branch length) and
_disassemble_instruction then marked the same byte as code; nothing ever
clears either mark. -/
theorem C7_byte_both_code_and_data :
    isOkD (runDisassemble c7img 40) = true ∧
    isMarkedB c7final.shadow 0x1000 M_CODE = true ∧
    isMarkedB c7final.shadow 0x1000 M_DATA = true := by
  refine ⟨rfl, rfl, rfl⟩

/-- C8 (code bug): get_basic_block reads self.shadow.start_address and
self.shadow.end_address, attributes the EMShadowMemory class never
defines, so every call raises AttributeError instead of returning a
block or None. -/
theorem C8_get_basic_block_raises_attribute_error :
    ∀ (fuel : Nat) (address : Int) (st : DState),
      get_basic_block fuel address st = Except.error EngineErr.attributeError :=
  fun _ _ _ => rfl

/-! Scenario for C10: a bss-like executable section whose backing data is
shorter than its address span, so the decoder reports end-of-stream at
the very first decode of a probe started inside the unbacked tail. -/

def secC10 : Section :=
  { start_address := 0x1000, end_address := 0x1010, flags := flagsLRX,
    data := List.replicate 4 0 }

def c10img : Image :=
  { mode := CPUMode.PROTECTED_32BIT, sections := [secC10],
    entry_points := [], functions := [], exit_points := [],
    relocations := [], insnAt := fun _ => none }

/-- Decoder state of the C10 probe right after _do_linear_sweep_disassembly
points the decoder at 0x1008: the offset 8 is already past the 4 itext
bytes. -/
def c10prep : DState :=
  { initState c10img with
    decoder := { itextLen := 4, itext_offset := 8, runtime_address := 0x1000 } }

/-- C10 (confirmed): the naive classifier accepts the empty instruction
window, Classifier.is_data is its exact negation, the C10 probe loop
decodes zero instructions before a clean end-of-stream stop, and _is_code
consequently reports code for the address 0x1008 although no instruction
was decoded from it (the engine state is returned unchanged). -/
theorem C10_empty_window_reports_code :
    naive_is_code [] = true ∧
    (Classifier.mk CLASSIFIER_NAIVE).is_data [] = false ∧
    probeLoop c10img 10 [] c10prep = Except.ok ((false, []), c10prep) ∧
    _is_code c10img 10 0x1008 (initState c10img) =
      Except.ok (true, initState c10img) := by
  refine ⟨rfl, rfl, rfl, rfl⟩

/-! Association-list and graph lemmas used by the general theorems. -/

theorem lookupA_setA_eq {α β : Type} [DecidableEq α] (l : List (α × β)) (k : α)
    (v : β) : lookupA (setA l k v) k = some v := by
  induction l with
  | nil => simp [setA, lookupA]
  | cons p rest ih =>
      by_cases h : p.1 = k
      · simp [setA, lookupA, h]
      · simp [setA, lookupA, h, ih]

theorem lookupA_setA_ne {α β : Type} [DecidableEq α] (l : List (α × β)) (k k2 : α)
    (v : β) (h : k ≠ k2) : lookupA (setA l k v) k2 = lookupA l k2 := by
  induction l with
  | nil => simp [setA, lookupA, h]
  | cons p rest ih =>
      by_cases hp : p.1 = k
      · simp [setA, lookupA, hp, h]
      · simp [setA, lookupA, hp, ih]

theorem add_vertex_edge_attributes (g : EMGraph) (w : Int) :
    (add_vertex g w)._edge_attributes = g._edge_attributes := by
  unfold add_vertex
  split <;> rfl

theorem succ_add_vertex (g : EMGraph) (w u : Int) :
    get_successors (add_vertex g w) u = get_successors g u := by
  unfold add_vertex get_successors
  split
  · rfl
  · rename_i hnone
    by_cases h : w = u
    · subst h
      simp only [lookupA_setA_eq]
      cases hl : lookupA g._graph w
      · rfl
      · exact absurd (by simp [hl]) hnone
    · simp [lookupA_setA_ne _ _ _ _ h]

theorem lookup_graph_add_vertex2 (g : EMGraph) (e : Int × Int) (x : Int) :
    (lookupA (add_vertex (add_vertex g e.1) e.2)._graph x).getD [] =
      get_successors g x := by
  have h1 := succ_add_vertex (add_vertex g e.1) e.2 x
  have h2 := succ_add_vertex g e.1 x
  unfold get_successors at h1 h2
  rw [h1, h2]
  rfl

theorem add_edge_eq_of_mem (g : EMGraph) (e : Int × Int)
    (h : e.2 ∈ get_successors g e.1) :
    add_edge g e = add_vertex (add_vertex g e.1) e.2 := by
  simp only [add_edge, lookup_graph_add_vertex2]
  rw [if_pos h]

theorem add_edge_eq_of_not_mem (g : EMGraph) (e : Int × Int)
    (h : e.2 ∉ get_successors g e.1) :
    add_edge g e =
      (let g2 := add_vertex (add_vertex g e.1) e.2
       { g2 with
         _graph := setA g2._graph e.1 (get_successors g e.1 ++ [e.2]),
         _transpose_graph := setA g2._transpose_graph e.2
           ((lookupA g2._transpose_graph e.2).getD [] ++ [e.1]),
         _edge_attributes := setA g2._edge_attributes e [] }) := by
  simp only [add_edge, lookup_graph_add_vertex2]
  rw [if_neg h]

theorem succ_add_edge (g : EMGraph) (e : Int × Int) (u : Int) :
    get_successors (add_edge g e) u =
      if u = e.1 then
        (if e.2 ∈ get_successors g e.1 then get_successors g e.1
         else get_successors g e.1 ++ [e.2])
      else get_successors g u := by
  by_cases hmem : e.2 ∈ get_successors g e.1
  · rw [add_edge_eq_of_mem g e hmem]
    have hx : get_successors (add_vertex (add_vertex g e.1) e.2) u =
        get_successors g u := by
      rw [succ_add_vertex, succ_add_vertex]
    rw [hx]
    by_cases hu : u = e.1
    · subst hu; simp [hmem]
    · simp [hu]
  · rw [add_edge_eq_of_not_mem g e hmem]
    by_cases hu : u = e.1
    · subst hu
      simp only [get_successors, if_pos rfl]
      rw [lookupA_setA_eq]
      have hmem2 : e.2 ∉ (lookupA g._graph e.1).getD [] := hmem
      simp only [Option.getD_some, if_neg hmem2]
      rfl
    · simp only [get_successors, if_neg hu]
      rw [lookupA_setA_ne _ _ _ _ (fun hc => hu hc.symm)]
      exact lookup_graph_add_vertex2 g e u

theorem edgeMem_add_edge (g : EMGraph) (e x : Int × Int) :
    edgeMem (add_edge g e) x = true ↔ (x = e ∨ edgeMem g x = true) := by
  simp only [edgeMem, succ_add_edge, decide_eq_true_eq]
  by_cases h1 : x.1 = e.1
  · rw [if_pos h1]
    by_cases hmem : e.2 ∈ get_successors g e.1
    · rw [if_pos hmem]
      constructor
      · intro hx
        right
        rw [h1]
        exact hx
      · intro hx
        cases hx with
        | inl hxe => rw [hxe]; exact hmem
        | inr hx2 => rw [h1] at hx2; exact hx2
    · rw [if_neg hmem]
      constructor
      · intro hx
        rcases List.mem_append.mp hx with hl | hr
        · right; rw [h1]; exact hl
        · left
          exact Prod.ext_iff.mpr ⟨h1, by simpa using hr⟩
      · intro hx
        cases hx with
        | inl hxe => rw [hxe]; exact List.mem_append.mpr (Or.inr (by simp))
        | inr hr =>
            rw [h1] at hr
            exact List.mem_append.mpr (Or.inl hr)
  · rw [if_neg h1]
    constructor
    · intro hx
      right
      exact hx
    · intro hx
      cases hx with
      | inl hxe => exact absurd (congrArg Prod.fst hxe) h1
      | inr hr => exact hr

theorem attrs_add_edge_of_mem (g : EMGraph) (e : Int × Int)
    (h : e.2 ∈ get_successors g e.1) :
    (add_edge g e)._edge_attributes = g._edge_attributes := by
  rw [add_edge_eq_of_mem g e h]
  rw [add_vertex_edge_attributes, add_vertex_edge_attributes]

theorem attrs_add_edge_of_not_mem (g : EMGraph) (e : Int × Int)
    (h : e.2 ∉ get_successors g e.1) :
    (add_edge g e)._edge_attributes = setA g._edge_attributes e [] := by
  rw [add_edge_eq_of_not_mem g e h]
  show setA (add_vertex (add_vertex g e.1) e.2)._edge_attributes e [] = _
  rw [add_vertex_edge_attributes, add_vertex_edge_attributes]

theorem gea_add_edge_other (g : EMGraph) (e x : Int × Int) (n : String)
    (hx : x ≠ e) :
    get_edge_attribute (add_edge g e) x n = get_edge_attribute g x n := by
  unfold get_edge_attribute
  by_cases hmem : e.2 ∈ get_successors g e.1
  · rw [attrs_add_edge_of_mem g e hmem]
  · rw [attrs_add_edge_of_not_mem g e hmem]
    rw [lookupA_setA_ne _ _ _ _ (fun hc => hx hc.symm)]

theorem attrs_lookup_add_edge_new (g : EMGraph) (e : Int × Int)
    (h : e.2 ∉ get_successors g e.1) :
    lookupA (add_edge g e)._edge_attributes e = some [] := by
  rw [attrs_add_edge_of_not_mem g e h]
  exact lookupA_setA_eq _ _ _

theorem gea_add_edge_attribute_self (g : EMGraph) (e : Int × Int) (n : String)
    (v : Bool) (sa : List (String × Bool))
    (h : lookupA g._edge_attributes e = some sa) :
    get_edge_attribute (add_edge_attribute g e n v) e n = some v := by
  unfold add_edge_attribute _add_attribute get_edge_attribute
  rw [h]
  simp only [lookupA_setA_eq]

theorem gea_add_edge_attribute_other (g : EMGraph) (e x : Int × Int)
    (n n2 : String) (v : Bool) (hx : x ≠ e) :
    get_edge_attribute (add_edge_attribute g e n v) x n2 =
      get_edge_attribute g x n2 := by
  unfold add_edge_attribute _add_attribute get_edge_attribute
  cases hl : lookupA g._edge_attributes e with
  | none => rfl
  | some sa => rw [lookupA_setA_ne _ _ _ _ (fun hc => hx hc.symm)]

theorem succ_add_edge_attribute (g : EMGraph) (e : Int × Int) (n : String)
    (v : Bool) (u : Int) :
    get_successors (add_edge_attribute g e n v) u = get_successors g u := rfl

/-! Elementary facts about the engine primitives. -/

theorem liftShadow_ok (f : EMShadowMemory → Option EMShadowMemory)
    (st st2 : DState) (h : liftShadow f st = Except.ok ((), st2)) :
    f st.shadow = some st2.shadow ∧
    st2.code_xrefs = st.code_xrefs ∧ st2.data_xrefs = st.data_xrefs ∧
    st2.cfg = st.cfg ∧ st2.basic_blocks = st.basic_blocks ∧
    st2.decoder = st.decoder := by
  unfold liftShadow at h
  cases hf : f st.shadow with
  | none => rw [hf] at h; exact absurd h (by simp)
  | some sm =>
      rw [hf] at h
      simp only [Except.ok.injEq, Prod.mk.injEq, true_and] at h
      rw [← h]
      exact ⟨rfl, rfl, rfl, rfl, rfl, rfl⟩

theorem queryShadow_ok {α : Type} (f : EMShadowMemory → Option α)
    (st : DState) (a : α) (st2 : DState)
    (h : queryShadow f st = Except.ok (a, st2)) :
    st2 = st ∧ f st.shadow = some a := by
  unfold queryShadow at h
  cases hf : f st.shadow with
  | none => rw [hf] at h; exact absurd h (by simp)
  | some b =>
      rw [hf] at h
      simp only [Except.ok.injEq, Prod.mk.injEq] at h
      refine ⟨h.2.symm, ?_⟩
      rw [h.1]


theorem modifyCodeXrefs_ok (f : EMGraph → EMGraph) (st st2 : DState)
    (h : modifyCodeXrefs f st = Except.ok ((), st2)) :
    st2 = { st with code_xrefs := f st.code_xrefs } := by
  unfold modifyCodeXrefs at h
  simp only [Except.ok.injEq, Prod.mk.injEq, true_and] at h
  exact h.symm

/-- C6 (amended): whenever the absolute branch displacement of a
conditional branch (any form but XEND) is executable and DIFFERS from the
next-instruction address, disassembling it from a state where the
instruction has no code-xref successors yet yields exactly the two
successors, the taken edge with attribute predicate=true and the
fall-through edge with predicate=false.  (When the two addresses
coincide, the edges collapse; see the counterexample.) -/
theorem C6A_cond_branch_two_edges_when_distinct
    (img : Image) (insn : Instr) (st st2 : DState)
    (hx : insn.iform ≠ XedIForm.XEND)
    (hexec : is_memory_executable img (get_branch_displacement insn) = true)
    (hne : get_branch_displacement insn ≠ get_next_instruction_address insn)
    (hsucc : get_successors st.code_xrefs insn.runtime_address = [])
    (h : _disassemble_conditional_jump_instruction img insn st = Except.ok ((), st2)) :
    get_successors st2.code_xrefs insn.runtime_address =
      [get_branch_displacement insn, get_next_instruction_address insn] ∧
    get_edge_attribute st2.code_xrefs
      (insn.runtime_address, get_branch_displacement insn) "predicate" = some true ∧
    get_edge_attribute st2.code_xrefs
      (insn.runtime_address, get_next_instruction_address insn) "predicate" = some false := by
  have hexecP : is_memory_executable img (get_branch_displacement insn) := hexec
  simp only [_disassemble_conditional_jump_instruction, if_pos hx, if_pos hexecP,
    bindE, modifyCodeXrefs, liftShadow, pureE] at h
  set ra := insn.runtime_address with hra
  set disp := get_branch_displacement insn with hdisp
  set next := get_next_instruction_address insn with hnext
  set g2 := add_edge_attribute (add_edge st.code_xrefs (ra, disp)) (ra, disp)
    "predicate" true with hg2
  cases hm1 : mark_as_basic_block_leader ({ st with code_xrefs := g2 } : DState).shadow disp with
  | none => rw [hm1] at h; exact absurd h (by simp)
  | some sm1 =>
      rw [hm1] at h
      simp only [] at h
      set g4 := add_edge_attribute (add_edge g2 (ra, next)) (ra, next)
        "predicate" false with hg4
      cases hm2 : mark_as_basic_block_leader sm1 next with
      | none =>
          rw [hm2] at h
          exact absurd h (by simp)
      | some sm2 =>
          rw [hm2] at h
          simp only [Except.ok.injEq, Prod.mk.injEq, true_and] at h
          have hst2 : st2.code_xrefs = g4 := by rw [← h]
          have hs1 : get_successors (add_edge st.code_xrefs (ra, disp)) ra = [disp] := by
            rw [succ_add_edge]
            simp [hsucc]
          have hs2 : get_successors g2 ra = [disp] := by
            rw [hg2, succ_add_edge_attribute]
            exact hs1
          have hnotmem : next ∉ get_successors g2 ra := by
            rw [hs2]
            intro hmem
            exact hne (List.mem_singleton.mp hmem).symm
          have hs3 : get_successors (add_edge g2 (ra, next)) ra = [disp, next] := by
            simp only [succ_add_edge, if_pos rfl]
            rw [if_neg hnotmem, hs2]
            simp
          have hs4 : get_successors g4 ra = [disp, next] := by
            rw [hg4, succ_add_edge_attribute]
            exact hs3
          refine ⟨by rw [hst2]; exact hs4, ?_, ?_⟩
          · rw [hst2, hg4]
            have hne1 : ((ra, disp) : Int × Int) ≠ (ra, next) := by
              intro hc
              exact hne (congrArg Prod.snd hc)
            rw [gea_add_edge_attribute_other _ _ _ _ _ _ hne1]
            rw [gea_add_edge_other _ _ _ _ hne1]
            rw [hg2]
            have hnew : disp ∉ get_successors st.code_xrefs ra := by
              rw [hsucc]; simp
            exact gea_add_edge_attribute_self _ _ _ _ []
              (attrs_lookup_add_edge_new _ _ hnew)
          · rw [hst2, hg4]
            exact gea_add_edge_attribute_self _ _ _ _ []
              (attrs_lookup_add_edge_new _ _ hnotmem)

theorem bindE_ok_inv {α β : Type} (x : EngineRes α) (k : α → DState → EngineRes β)
    (r : β × DState) (h : bindE x k = Except.ok r) :
    ∃ a st, x = Except.ok (a, st) ∧ k a st = Except.ok r := by
  cases x with
  | error e => simp [bindE] at h
  | ok p =>
      refine ⟨p.1, p.2, rfl, ?_⟩
      simpa [bindE] using h

/-- Post-condition of _get_jump_table_element: it never mutates the state,
and a recovered element always lies in executable memory. -/
theorem jte_ok (img : Image) (address : Int) (length : Nat) (st : DState)
    (r : Option Int) (st2 : DState)
    (h : _get_jump_table_element img address length st = Except.ok (r, st2)) :
    st2 = st ∧ ∀ e : Int, r = some e → is_memory_executable img e = true := by
  unfold _get_jump_table_element at h
  by_cases hlen : length ≠ 4 ∧ length ≠ 6 ∧ length ≠ 8 ∧ length ≠ 10
  · rw [if_pos hlen] at h
    cases h
  · rw [if_neg hlen] at h
    obtain ⟨relocated, stq, hq, h2⟩ := bindE_ok_inv _ _ _ h
    clear h
    obtain ⟨hstq, -⟩ := queryShadow_ok _ _ _ _ hq
    by_cases hc1 : (relocated || !decide (img.relocations.length > 0)) = true
    · rw [if_pos hc1] at h2
      cases hr : read_memory img address length with
      | none => rw [hr] at h2; cases h2
      | some data =>
          rw [hr] at h2
          dsimp only [] at h2
          by_cases hdl : data.length ≠ length
          · rw [if_pos hdl] at h2
            cases h2
          · rw [if_neg hdl] at h2
            obtain ⟨leaf, stq2, hq2, h3⟩ := bindE_ok_inv _ _ _ h2
            clear h2
            obtain ⟨hstq2, -⟩ := queryShadow_ok _ _ _ _ hq2
            by_cases hc2 : (leaf || !decide (img.relocations.length > 0)) = true
            · rw [if_pos hc2] at h3
              by_cases hex :
                  is_memory_executable img (jumpTableElementValue length data) = true
              · rw [if_pos hex] at h3
                simp only [pureE, Except.ok.injEq, Prod.mk.injEq] at h3
                refine ⟨by rw [← h3.2, hstq2, hstq], ?_⟩
                intro e he
                rw [← h3.1] at he
                cases he
                exact hex
              · rw [if_neg hex] at h3
                simp only [pureE, Except.ok.injEq, Prod.mk.injEq] at h3
                refine ⟨by rw [← h3.2, hstq2, hstq], ?_⟩
                intro e he
                rw [← h3.1] at he
                cases he
            · rw [if_neg hc2] at h3
              simp only [pureE, Except.ok.injEq, Prod.mk.injEq] at h3
              refine ⟨by rw [← h3.2, hstq2, hstq], ?_⟩
              intro e he
              rw [← h3.1] at he
              cases he
    · rw [if_neg hc1] at h2
      simp only [pureE, Except.ok.injEq, Prod.mk.injEq] at h2
      refine ⟨by rw [← h2.2, hstq], ?_⟩
      intro e he
      rw [← h2.1] at he
      cases he

/-- C5 (amended): every code xref added by the jump-table walker points
either into an executable section (elements recovered through
_get_jump_table_element) or at a known exit point (the import-thunk
branch, which only requires the slot address to be mapped). -/
theorem C5A_walker_xrefs_exit_or_executable
    (img : Image) (insn : Instr) (index_reg : BaseRegKind) (scale : Int)
    (length : Nat) :
    ∀ (fuel : Nat) (d : Int) (st st2 : DState) (x : Int × Int),
      walkerLoop img insn index_reg scale length fuel d st = Except.ok ((), st2) →
      edgeMem st2.code_xrefs x = true →
      edgeMem st.code_xrefs x = true ∨ x.2 ∈ img.exit_points ∨
        is_memory_executable img x.2 = true := by
  intro fuel
  induction fuel with
  | zero => intro d st st2 x h hx; cases h
  | succ n ih =>
      intro d st st2 x h hx
      unfold walkerLoop at h
      by_cases hm : is_memory_mapped img d = true
      · rw [if_pos hm] at h
        by_cases hexit : d ∉ img.exit_points
        · rw [if_pos hexit] at h
          obtain ⟨elem, stj, hj, h2⟩ := bindE_ok_inv _ _ _ h
          obtain ⟨hstj, hexecElem⟩ := jte_ok _ _ _ _ _ _ hj
          subst hstj
          cases elem with
          | none =>
              dsimp only [] at h2
              simp only [pureE, Except.ok.injEq, Prod.mk.injEq, true_and] at h2
              rw [← h2] at hx
              exact Or.inl hx
          | some e =>
              dsimp only [] at h2
              by_cases he0 : e = 0
              · rw [if_pos he0] at h2
                simp only [pureE, Except.ok.injEq, Prod.mk.injEq, true_and] at h2
                rw [← h2] at hx
                exact Or.inl hx
              · rw [if_neg he0] at h2
                obtain ⟨u1, stm, hmod, h3⟩ := bindE_ok_inv _ _ _ h2
                have hstm := modifyCodeXrefs_ok _ _ _ hmod
                obtain ⟨u2, stl, hlift, h4⟩ := bindE_ok_inv _ _ _ h3
                obtain ⟨-, hcx, -, -, -, -⟩ := liftShadow_ok _ _ _ hlift
                have hstmcx : stm.code_xrefs =
                    add_edge stj.code_xrefs (insn.runtime_address, e) := by
                  rw [hstm]
                have hedge : ∀ y : Int × Int, edgeMem stl.code_xrefs y = true →
                    edgeMem stj.code_xrefs y = true ∨ y.2 ∈ img.exit_points ∨
                      is_memory_executable img y.2 = true := by
                  intro y hy
                  rw [hcx, hstmcx] at hy
                  rcases (edgeMem_add_edge _ _ _).mp hy with hye | hold
                  · right; right
                    rw [hye]
                    exact hexecElem e rfl
                  · exact Or.inl hold
                by_cases hidx : index_reg = BaseRegKind.INVALIDREG
                · rw [if_pos hidx] at h4
                  simp only [pureE, Except.ok.injEq, Prod.mk.injEq, true_and] at h4
                  rw [← h4] at hx
                  exact hedge x hx
                · rw [if_neg hidx] at h4
                  rcases ih (d + scale) stl st2 x h4 hx with hl | hrest
                  · exact hedge x hl
                  · exact Or.inr hrest
        · rw [if_neg hexit] at h
          have hexitmem : d ∈ img.exit_points := not_not.mp hexit
          obtain ⟨u1, stm, hmod, h3⟩ := bindE_ok_inv _ _ _ h
          have hstm := modifyCodeXrefs_ok _ _ _ hmod
          have hstmcx : stm.code_xrefs =
              add_edge st.code_xrefs (insn.runtime_address, d) := by
            rw [hstm]
          have hedge : ∀ y : Int × Int, edgeMem stm.code_xrefs y = true →
              edgeMem st.code_xrefs y = true ∨ y.2 ∈ img.exit_points ∨
                is_memory_executable img y.2 = true := by
            intro y hy
            rw [hstmcx] at hy
            rcases (edgeMem_add_edge _ _ _).mp hy with hye | hold
            · right; left
              rw [hye]
              exact hexitmem
            · exact Or.inl hold
          by_cases hidx : index_reg = BaseRegKind.INVALIDREG
          · rw [if_pos hidx] at h3
            simp only [pureE, Except.ok.injEq, Prod.mk.injEq, true_and] at h3
            rw [← h3] at hx
            exact hedge x hx
          · rw [if_neg hidx] at h3
            rcases ih (d + scale) stm st2 x h3 hx with hl | hrest
            · exact hedge x hl
            · exact Or.inr hrest
      · rw [if_neg hm] at h
        simp only [pureE, Except.ok.injEq, Prod.mk.injEq, true_and] at h
        rw [← h] at hx
        exact Or.inl hx

def c5ainsn : Instr :=
  { (c5insnAt 0x1000).getD baseInstr with runtime_address := 0x1000 }

def c5aSt2 : DState :=
  match walkerLoop c5img c5ainsn BaseRegKind.INVALIDREG 4 4 2 0x2000
      (initState c5img) with
  | Except.ok (_, st) => st
  | Except.error _ => initState c5img

theorem C5A_witness :
    edgeMem (initState c5img).code_xrefs (0x1000, 0x2000) = true ∨
    (0x2000 : Int) ∈ c5img.exit_points ∨
    is_memory_executable c5img (0x2000 : Int) = true :=
  C5A_walker_xrefs_exit_or_executable c5img c5ainsn BaseRegKind.INVALIDREG 4 4 2
    0x2000 (initState c5img) c5aSt2 (0x1000, 0x2000) (by rfl) (by rfl)

def c6ainsn : Instr := { c6insn with branch_displacement_raw := 6 }

def c6aSt2 : DState :=
  match _disassemble_conditional_jump_instruction c6img c6ainsn
      (initState c6img) with
  | Except.ok (_, st) => st
  | Except.error _ => initState c6img

theorem C6A_witness :
    get_successors c6aSt2.code_xrefs c6ainsn.runtime_address =
      [get_branch_displacement c6ainsn, get_next_instruction_address c6ainsn] ∧
    get_edge_attribute c6aSt2.code_xrefs
      (c6ainsn.runtime_address, get_branch_displacement c6ainsn)
      "predicate" = some true ∧
    get_edge_attribute c6aSt2.code_xrefs
      (c6ainsn.runtime_address, get_next_instruction_address c6ainsn)
      "predicate" = some false :=
  C6A_cond_branch_two_edges_when_distinct c6img c6ainsn (initState c6img)
    c6aSt2 (by decide) (by rfl) (by decide) (by rfl) (by rfl)

/-! List and bit-mask lemmas supporting the shadow-memory mark analysis. -/

theorem getD_set_self {α : Type} : ∀ (l : List α) (i : Nat) (x d : α),
    i < l.length → (l.set i x).getD i d = x
  | [], i, _, _, h => absurd h (Nat.not_lt_zero i)
  | _ :: _, 0, _, _, _ => rfl
  | _ :: l, i + 1, x, d, h => getD_set_self l i x d (Nat.lt_of_succ_lt_succ h)

theorem getD_set_ne {α : Type} : ∀ (l : List α) (i k : Nat) (x d : α),
    i ≠ k → (l.set i x).getD k d = l.getD k d
  | [], _, _, _, _, _ => rfl
  | _ :: _, 0, 0, _, _, h => absurd rfl h
  | _ :: _, 0, _ + 1, _, _, _ => rfl
  | _ :: _, _ + 1, 0, _, _, _ => rfl
  | _ :: l, i + 1, k + 1, x, d, h =>
      getD_set_ne l i k x d (fun hc => h (by rw [hc]))

theorem set_oob {α : Type} : ∀ (l : List α) (i : Nat) (x : α),
    l.length ≤ i → l.set i x = l
  | [], _, _, _ => rfl
  | _ :: _, 0, _, h => absurd h (by simp)
  | a :: l, i + 1, x, h =>
      congrArg (a :: ·) (set_oob l i x (Nat.le_of_succ_le_succ h))

theorem land_lor_of_land (v m f : Nat) (h : v &&& f = f) : (v ||| m) &&& f = f := by
  apply Nat.eq_of_testBit_eq
  intro i
  have hv := congrArg (fun x => Nat.testBit x i) h
  simp only [Nat.testBit_land, Nat.testBit_lor] at hv ⊢
  cases hf : f.testBit i with
  | false => simp [hf]
  | true =>
      rw [hf] at hv
      simp only [Bool.and_true] at hv
      simp [hv, hf]

theorem land_lor_of_sub (v m f : Nat) (h : m &&& f = f) : (v ||| m) &&& f = f := by
  apply Nat.eq_of_testBit_eq
  intro i
  have hv := congrArg (fun x => Nat.testBit x i) h
  simp only [Nat.testBit_land, Nat.testBit_lor] at hv ⊢
  cases hf : f.testBit i with
  | false => simp [hf]
  | true =>
      rw [hf] at hv
      simp only [Bool.and_true] at hv
      simp [hv, hf]

theorem land_trans (v m f : Nat) (h1 : v &&& m = m) (h2 : m &&& f = f) :
    v &&& f = f := by
  apply Nat.eq_of_testBit_eq
  intro i
  have hv1 := congrArg (fun x => Nat.testBit x i) h1
  have hv2 := congrArg (fun x => Nat.testBit x i) h2
  simp only [Nat.testBit_land] at hv1 hv2 ⊢
  cases hf : f.testBit i with
  | false => simp [hf]
  | true =>
      rw [hf] at hv2
      simp only [Bool.and_true] at hv2
      rw [hv2] at hv1
      simp only [Bool.and_true] at hv1
      simp [hv1, hf]

/-- An address is backed by the shadow memory: its coordinates exist and
point inside the stored shadow rows.  This holds for every shadow built by
_make_shadow_memory and is preserved by all marking operations. -/
def backedB (sm : EMShadowMemory) (address : Int) : Bool :=
  match _get_shadow_memory_coordinates sm address with
  | none => false
  | some (i, j) =>
      decide (i < sm.shadows.length) &&
      decide (j < (sm.shadows.getD i []).length)

theorem mark_eq (sm : EMShadowMemory) (address : Int) (mark : Nat) :
    _mark sm address mark =
      match _get_shadow_memory_coordinates sm address with
      | none => none
      | some (i, j) =>
          let shadow := sm.shadows.getD i []
          let v := shadow.getD j 0
          some (if v &&& mark ≠ mark then
            { sm with shadows := sm.shadows.set i (shadow.set j (v ||| mark)) }
          else sm) := by
  unfold _mark
  cases h : _get_shadow_memory_coordinates sm address with
  | none => rfl
  | some p =>
      cases p with
      | mk i j =>
          simp only [Option.pure_def, Option.bind_eq_bind, Option.bind_some]
          rw [apply_ite some]
          rfl

theorem is_marked_eq (sm : EMShadowMemory) (address : Int) (mark : Nat) :
    _is_marked sm address mark =
      match _get_shadow_memory_coordinates sm address with
      | none => none
      | some (i, j) =>
          some (((sm.shadows.getD i []).getD j 0) &&& mark == mark) := by
  unfold _is_marked
  cases h : _get_shadow_memory_coordinates sm address with
  | none => rfl
  | some p =>
      cases p with
      | mk i j =>
          rfl

theorem mark_range_eq (sm : EMShadowMemory) (address : Int) (length mark : Nat) :
    _mark_range sm address length mark =
      match _get_shadow_memory_coordinates sm address with
      | none => none
      | some (i, j) =>
          let shadow := sm.shadows.getD i []
          let limit := min (j + length) shadow.length
          some { sm with
            shadows := sm.shadows.set i (markSlots shadow j (limit - j) mark) } := by
  unfold _mark_range
  cases h : _get_shadow_memory_coordinates sm address with
  | none => rfl
  | some p =>
      cases p with
      | mk i j =>
          rfl

theorem coords_congr (sm sm2 : EMShadowMemory) (a : Int)
    (h : sm2.memory_ranges = sm.memory_ranges) :
    _get_shadow_memory_coordinates sm2 a = _get_shadow_memory_coordinates sm a := by
  unfold _get_shadow_memory_coordinates
  rw [h]

theorem lor_lor_self (v m : Nat) : (v ||| m) ||| m = v ||| m := by
  apply Nat.eq_of_testBit_eq
  intro i
  simp only [Nat.testBit_lor, Bool.or_assoc, Bool.or_self]

theorem mark_cases (sm sm2 : EMShadowMemory) (b : Int) (m : Nat)
    (h : _mark sm b m = some sm2) :
    sm2.memory_ranges = sm.memory_ranges ∧
    sm2.shadows.length = sm.shadows.length ∧
    (∀ i, (sm2.shadows.getD i []).length = (sm.shadows.getD i []).length) ∧
    (∀ i j, (sm2.shadows.getD i []).getD j 0 = (sm.shadows.getD i []).getD j 0 ∨
      (sm2.shadows.getD i []).getD j 0 = ((sm.shadows.getD i []).getD j 0) ||| m) := by
  rw [mark_eq] at h
  cases hc : _get_shadow_memory_coordinates sm b with
  | none => rw [hc] at h; exact absurd h (by simp)
  | some p =>
      obtain ⟨ib, jb⟩ := p
      rw [hc] at h
      dsimp only [] at h
      have h2 := Option.some.inj h
      by_cases hcond : ((sm.shadows.getD ib []).getD jb 0) &&& m ≠ m
      · rw [if_pos hcond] at h2
        rw [← h2]
        refine ⟨rfl, List.length_set _ _ _, ?_, ?_⟩
        · intro i
          by_cases hi : ib = i
          · subst hi
            by_cases hlen : sm.shadows.length ≤ ib
            · rw [set_oob _ _ _ hlen]
            · rw [getD_set_self _ _ _ _ (Nat.lt_of_not_le hlen)]
              exact List.length_set _ _ _
          · rw [getD_set_ne _ _ _ _ _ hi]
        · intro i j
          by_cases hi : ib = i
          · subst hi
            by_cases hlen : sm.shadows.length ≤ ib
            · rw [set_oob _ _ _ hlen]; exact Or.inl rfl
            · rw [getD_set_self _ _ _ _ (Nat.lt_of_not_le hlen)]
              by_cases hj : jb = j
              · subst hj
                by_cases hrl : (sm.shadows.getD ib []).length ≤ jb
                · rw [set_oob _ _ _ hrl]; exact Or.inl rfl
                · rw [getD_set_self _ _ _ _ (Nat.lt_of_not_le hrl)]
                  exact Or.inr rfl
              · rw [getD_set_ne _ _ _ _ _ hj]; exact Or.inl rfl
          · rw [getD_set_ne _ _ _ _ _ hi]; exact Or.inl rfl
      · rw [if_neg hcond] at h2
        rw [← h2]
        exact ⟨rfl, rfl, fun _ => rfl, fun _ _ => Or.inl rfl⟩

theorem markSlots_length : ∀ (cnt : Nat) (shadow : List Nat) (j m : Nat),
    (markSlots shadow j cnt m).length = shadow.length := by
  intro cnt
  induction cnt with
  | zero => intro shadow j m; rfl
  | succ c ih =>
      intro shadow j m
      rw [show markSlots shadow j (c + 1) m =
        markSlots (if (shadow.getD j 0) &&& m ≠ m then
          shadow.set j ((shadow.getD j 0) ||| m) else shadow) (j + 1) c m from rfl]
      rw [ih]
      by_cases hc : (shadow.getD j 0) &&& m ≠ m
      · rw [if_pos hc]; exact List.length_set _ _ _
      · rw [if_neg hc]

theorem markSlots_getD : ∀ (cnt : Nat) (shadow : List Nat) (j k m : Nat),
    (markSlots shadow j cnt m).getD k 0 = shadow.getD k 0 ∨
    (markSlots shadow j cnt m).getD k 0 = (shadow.getD k 0) ||| m := by
  intro cnt
  induction cnt with
  | zero => intro shadow j k m; exact Or.inl rfl
  | succ c ih =>
      intro shadow j k m
      rw [show markSlots shadow j (c + 1) m =
        markSlots (if (shadow.getD j 0) &&& m ≠ m then
          shadow.set j ((shadow.getD j 0) ||| m) else shadow) (j + 1) c m from rfl]
      have hstep : (if (shadow.getD j 0) &&& m ≠ m then
          shadow.set j ((shadow.getD j 0) ||| m) else shadow).getD k 0 =
            shadow.getD k 0 ∨
          (if (shadow.getD j 0) &&& m ≠ m then
          shadow.set j ((shadow.getD j 0) ||| m) else shadow).getD k 0 =
            (shadow.getD k 0) ||| m := by
        by_cases hc : (shadow.getD j 0) &&& m ≠ m
        · rw [if_pos hc]
          by_cases hjk : j = k
          · subst hjk
            by_cases hlen : shadow.length ≤ j
            · rw [set_oob _ _ _ hlen]; exact Or.inl rfl
            · rw [getD_set_self _ _ _ _ (Nat.lt_of_not_le hlen)]
              exact Or.inr rfl
          · rw [getD_set_ne _ _ _ _ _ hjk]; exact Or.inl rfl
        · rw [if_neg hc]; exact Or.inl rfl
      rcases ih (if (shadow.getD j 0) &&& m ≠ m then
          shadow.set j ((shadow.getD j 0) ||| m) else shadow) (j + 1) k m with
        h1 | h1 <;> rcases hstep with h2 | h2
      · exact Or.inl (h1.trans h2)
      · exact Or.inr (h1.trans h2)
      · rw [h1, h2]; exact Or.inr rfl
      · rw [h1, h2, lor_lor_self]; exact Or.inr rfl

theorem mark_range_cases (sm sm2 : EMShadowMemory) (b : Int) (len m : Nat)
    (h : _mark_range sm b len m = some sm2) :
    sm2.memory_ranges = sm.memory_ranges ∧
    sm2.shadows.length = sm.shadows.length ∧
    (∀ i, (sm2.shadows.getD i []).length = (sm.shadows.getD i []).length) ∧
    (∀ i j, (sm2.shadows.getD i []).getD j 0 = (sm.shadows.getD i []).getD j 0 ∨
      (sm2.shadows.getD i []).getD j 0 = ((sm.shadows.getD i []).getD j 0) ||| m) := by
  rw [mark_range_eq] at h
  cases hc : _get_shadow_memory_coordinates sm b with
  | none => rw [hc] at h; exact absurd h (by simp)
  | some p =>
      obtain ⟨ib, jb⟩ := p
      rw [hc] at h
      dsimp only [] at h
      have h2 := Option.some.inj h
      rw [← h2]
      refine ⟨rfl, List.length_set _ _ _, ?_, ?_⟩
      · intro i
        by_cases hi : ib = i
        · subst hi
          by_cases hlen : sm.shadows.length ≤ ib
          · rw [set_oob _ _ _ hlen]
          · rw [getD_set_self _ _ _ _ (Nat.lt_of_not_le hlen)]
            exact markSlots_length _ _ _ _
        · rw [getD_set_ne _ _ _ _ _ hi]
      · intro i j
        by_cases hi : ib = i
        · subst hi
          by_cases hlen : sm.shadows.length ≤ ib
          · rw [set_oob _ _ _ hlen]; exact Or.inl rfl
          · rw [getD_set_self _ _ _ _ (Nat.lt_of_not_le hlen)]
            exact markSlots_getD _ _ _ _ _
        · rw [getD_set_ne _ _ _ _ _ hi]; exact Or.inl rfl

theorem marked_mono (sm sm2 : EMShadowMemory) (m : Nat)
    (hmr : sm2.memory_ranges = sm.memory_ranges)
    (hval : ∀ i j, (sm2.shadows.getD i []).getD j 0 =
        (sm.shadows.getD i []).getD j 0 ∨
      (sm2.shadows.getD i []).getD j 0 =
        ((sm.shadows.getD i []).getD j 0) ||| m)
    (x : Int) (f : Nat) (hm : isMarkedB sm x f = true) :
    isMarkedB sm2 x f = true := by
  unfold isMarkedB at hm ⊢
  rw [is_marked_eq] at hm ⊢
  rw [coords_congr sm sm2 x hmr]
  cases hc : _get_shadow_memory_coordinates sm x with
  | none => rw [hc] at hm; exact absurd hm (by simp)
  | some p =>
      obtain ⟨i, j⟩ := p
      rw [hc] at hm
      dsimp only [] at hm ⊢
      simp only [Option.getD_some, beq_iff_eq] at hm ⊢
      rcases hval i j with hv | hv
      · rw [hv]; exact hm
      · rw [hv]; exact land_lor_of_land _ _ _ hm

theorem backed_mono (sm sm2 : EMShadowMemory)
    (hmr : sm2.memory_ranges = sm.memory_ranges)
    (hlen : sm2.shadows.length = sm.shadows.length)
    (hrow : ∀ i, (sm2.shadows.getD i []).length = (sm.shadows.getD i []).length)
    (x : Int) (hb : backedB sm x = true) : backedB sm2 x = true := by
  unfold backedB at hb ⊢
  rw [coords_congr sm sm2 x hmr]
  cases hc : _get_shadow_memory_coordinates sm x with
  | none => rw [hc] at hb; exact absurd hb (by simp)
  | some p =>
      obtain ⟨i, j⟩ := p
      rw [hc] at hb
      dsimp only [] at hb ⊢
      rw [hlen, hrow i]
      exact hb

/-- A successful _mark with a mask containing the bits of f leaves the
queried mark set at the marked address, provided the address is backed. -/
theorem mark_sets (sm sm2 : EMShadowMemory) (a : Int) (m f : Nat)
    (hmf : m &&& f = f)
    (hb : backedB sm a = true) (h : _mark sm a m = some sm2) :
    isMarkedB sm2 a f = true := by
  rw [mark_eq] at h
  unfold backedB at hb
  cases hc : _get_shadow_memory_coordinates sm a with
  | none => rw [hc] at hb; exact absurd hb (by simp)
  | some p =>
      obtain ⟨i, j⟩ := p
      rw [hc] at h hb
      dsimp only [] at h hb
      simp only [Bool.and_eq_true, decide_eq_true_eq] at hb
      obtain ⟨hi, hj⟩ := hb
      have h2 := Option.some.inj h
      have hmr2 : sm2.memory_ranges = sm.memory_ranges := by
        rw [← h2]
        by_cases hcond : ((sm.shadows.getD i []).getD j 0) &&& m ≠ m
        · rw [if_pos hcond]
        · rw [if_neg hcond]
      unfold isMarkedB
      rw [is_marked_eq, coords_congr sm sm2 a hmr2, hc]
      dsimp only []
      simp only [Option.getD_some, beq_iff_eq]
      by_cases hcond : ((sm.shadows.getD i []).getD j 0) &&& m ≠ m
      · rw [if_pos hcond] at h2
        rw [← h2]
        dsimp only []
        rw [getD_set_self _ _ _ _ hi]
        rw [getD_set_self _ _ _ _ hj]
        exact land_lor_of_sub _ _ _ hmf
      · rw [if_neg hcond] at h2
        rw [← h2]
        exact land_trans _ _ _ (not_not.mp hcond) hmf

theorem mark_preserves (sm sm2 : EMShadowMemory) (b : Int) (m : Nat)
    (h : _mark sm b m = some sm2) (x : Int) (f : Nat)
    (hm : isMarkedB sm x f = true) : isMarkedB sm2 x f = true := by
  obtain ⟨h1, -, -, h4⟩ := mark_cases sm sm2 b m h
  exact marked_mono sm sm2 m h1 h4 x f hm

theorem mark_backed (sm sm2 : EMShadowMemory) (b : Int) (m : Nat)
    (h : _mark sm b m = some sm2) (x : Int)
    (hb : backedB sm x = true) : backedB sm2 x = true := by
  obtain ⟨h1, h2, h3, -⟩ := mark_cases sm sm2 b m h
  exact backed_mono sm sm2 h1 h2 h3 x hb

theorem mark_range_preserves (sm sm2 : EMShadowMemory) (b : Int) (len m : Nat)
    (h : _mark_range sm b len m = some sm2) (x : Int) (f : Nat)
    (hm : isMarkedB sm x f = true) : isMarkedB sm2 x f = true := by
  obtain ⟨h1, -, -, h4⟩ := mark_range_cases sm sm2 b len m h
  exact marked_mono sm sm2 m h1 h4 x f hm

theorem mark_as_code_mono (sm sm2 : EMShadowMemory) (a : Int) (len : Nat)
    (h : mark_as_code sm a len = some sm2) (x : Int) (f : Nat)
    (hm : isMarkedB sm x f = true) : isMarkedB sm2 x f = true := by
  unfold mark_as_code at h
  cases h1 : _mark sm a (M_HEAD ||| M_CODE) with
  | none => rw [h1] at h; exact absurd h (by simp)
  | some smm =>
      rw [h1] at h
      have h2 : _mark_range smm (a + 1) (len - 1) M_CODE = some sm2 := h
      exact mark_range_preserves _ _ _ _ _ h2 x f (mark_preserves _ _ _ _ h1 x f hm)

theorem mark_as_data_mono (sm sm2 : EMShadowMemory) (a : Int) (len : Nat)
    (h : mark_as_data sm a len = some sm2) (x : Int) (f : Nat)
    (hm : isMarkedB sm x f = true) : isMarkedB sm2 x f = true := by
  unfold mark_as_data at h
  cases h1 : _mark sm a (M_HEAD ||| M_DATA) with
  | none => rw [h1] at h; exact absurd h (by simp)
  | some smm =>
      rw [h1] at h
      have h2 : _mark_range smm (a + 1) (len - 1) M_DATA = some sm2 := h
      exact mark_range_preserves _ _ _ _ _ h2 x f (mark_preserves _ _ _ _ h1 x f hm)

/-- The FUNCTION-marking loop of _disassemble_call_instruction marks every
address of its input list, preserves all existing marks, and leaves the
code xrefs untouched. -/
theorem markSucc_spec : ∀ (addrs : List Int) (st st2 : DState),
    (∀ a ∈ addrs, backedB st.shadow a = true) →
    markSuccessorsAsFunctions addrs st = Except.ok ((), st2) →
    (∀ a ∈ addrs, isMarkedB st2.shadow a M_FUNCTION = true) ∧
    (∀ (x : Int) (f : Nat), isMarkedB st.shadow x f = true →
      isMarkedB st2.shadow x f = true) ∧
    st2.code_xrefs = st.code_xrefs := by
  intro addrs
  induction addrs with
  | nil =>
      intro st st2 hb h
      have h2 : (Except.ok (((), st)) : EngineRes Unit) = Except.ok ((), st2) := h
      have h3 : st = st2 := congrArg Prod.snd (Except.ok.inj h2)
      subst h3
      exact ⟨fun a ha => absurd ha (List.not_mem_nil a), fun _ _ hm => hm, rfl⟩
  | cons a rest ih =>
      intro st st2 hb h
      have h0 : bindE (liftShadow (fun sm => mark_as_function sm a) st)
          (fun _ st => markSuccessorsAsFunctions rest st) = Except.ok ((), st2) := h
      obtain ⟨u, stm, hlift, hrest⟩ := bindE_ok_inv _ _ _ h0
      obtain ⟨hf, hcx, -, -, -, -⟩ := liftShadow_ok _ _ _ hlift
      have hmk : _mark st.shadow a
          (M_HEAD ||| M_CODE ||| M_BASIC_BLOCK_LEADER ||| M_FUNCTION) =
          some stm.shadow := hf
      have hbrest : ∀ a2 ∈ rest, backedB stm.shadow a2 = true := by
        intro a2 ha2
        exact mark_backed _ _ _ _ hmk a2 (hb a2 (List.mem_cons_of_mem a ha2))
      obtain ⟨hall, hpres, hcx2⟩ := ih stm st2 hbrest hrest
      refine ⟨?_, ?_, hcx2.trans hcx⟩
      · intro a2 ha2
        rcases List.mem_cons.mp ha2 with he | hmem
        · subst he
          have h1 : isMarkedB stm.shadow a2 M_FUNCTION = true :=
            mark_sets _ _ _ _ _ (by decide) (hb a2 (List.mem_cons_self a2 rest)) hmk
          exact hpres a2 M_FUNCTION h1
        · exact hall a2 hmem
      · intro x f hm
        exact hpres x f (mark_preserves _ _ _ _ hmk x f hm)

/-- C4 (amended): in the indirect-memory branch of
_disassemble_call_instruction, the FUNCTION marking applies to EVERY
code-xref successor of ra current at that point (not only the ones newly
added by the memory-operand resolution step — see the counterexample,
where the recovered element equals ra + len); the loop preserves all
existing shadow marks and touches no xref, and the handler inserts the
fall-through edge only after the marking, as shown by the structural
equation. -/
theorem C4A_call_function_marking
    (img : Image) (fuel : Nat) (insn : Instr) (st0 : DState)
    (addrs : List Int) (st st2 : DState)
    (hiform : insn.iform = XedIForm.CALL_NEAR_MEMv)
    (hb : ∀ a ∈ addrs, backedB st.shadow a = true)
    (h : markSuccessorsAsFunctions addrs st = Except.ok ((), st2)) :
    (∀ a ∈ addrs, isMarkedB st2.shadow a M_FUNCTION = true) ∧
    st2.code_xrefs = st.code_xrefs ∧
    _disassemble_call_instruction img fuel insn st0 =
      bindE
        (bindE (_analyze_flow_control_instruction_memory_operands img fuel insn st0)
          (fun _ st => markSuccessorsAsFunctions
            (get_successors st.code_xrefs insn.runtime_address) st))
        (fun _ st => modifyCodeXrefs
          (fun g => add_edge g (insn.runtime_address,
            get_next_instruction_address insn)) st) := by
  obtain ⟨hall, -, hcx⟩ := markSucc_spec addrs st st2 hb h
  refine ⟨hall, hcx, ?_⟩
  have hne : ¬(insn.iform = XedIForm.CALL_NEAR_RELBRz ∨
      insn.iform = XedIForm.CALL_NEAR_RELBRd) := by
    rw [hiform]
    intro hor
    rcases hor with h1 | h1 <;> exact absurd h1 (by decide)
  unfold _disassemble_call_instruction
  dsimp only []
  rw [if_neg hne, if_pos (Or.inl hiform)]

def c4ainsn : Instr :=
  { (c4insnAt 0x1000).getD baseInstr with runtime_address := 0x1000 }

def c4aSt2 : DState :=
  match markSuccessorsAsFunctions [0x1003] (initState c4img) with
  | Except.ok (_, st) => st
  | Except.error _ => initState c4img

theorem C4A_witness : isMarkedB c4aSt2.shadow 0x1003 M_FUNCTION = true :=
  (C4A_call_function_marking c4img 5 c4ainsn (initState c4img) [0x1003]
    (initState c4img) c4aSt2 rfl (by decide) rfl).1 0x1003 (by decide)

/-- C7 (amended): the CODE and DATA shadow markings are or-only updates:
mark_as_code never clears a DATA (or any other) mark and mark_as_data
never clears a CODE (or any other) mark, so the two markings performed by
operand analysis and instruction analysis accumulate — both bits persist
on a shared byte (see the counterexample), replacing the claimed mutual
exclusion by monotonicity. -/
theorem C7A_code_data_marks_monotone
    (sm sm2 sm3 : EMShadowMemory) (a b : Int) (la lb : Nat)
    (hc : mark_as_code sm a la = some sm2)
    (hd : mark_as_data sm2 b lb = some sm3) :
    (∀ (x : Int) (f : Nat), isMarkedB sm x f = true → isMarkedB sm2 x f = true) ∧
    (∀ (x : Int) (f : Nat), isMarkedB sm2 x f = true → isMarkedB sm3 x f = true) :=
  ⟨fun x f hm => mark_as_code_mono sm sm2 a la hc x f hm,
   fun x f hm => mark_as_data_mono sm2 sm3 b lb hd x f hm⟩

def c7aSm0 : EMShadowMemory := (initState c7img).shadow

def c7aSm1 : EMShadowMemory := (mark_as_code c7aSm0 0x1000 1).getD c7aSm0

def c7aSm2 : EMShadowMemory := (mark_as_data c7aSm1 0x1000 1).getD c7aSm1

theorem C7A_witness : isMarkedB c7aSm2 0x1000 M_CODE = true :=
  (C7A_code_data_marks_monotone c7aSm0 c7aSm1 c7aSm2 0x1000 0x1000 1 1
    rfl rfl).2 0x1000 M_CODE (by rfl)

theorem pureE_ok_inv {α : Type} (a : α) (st : DState) (r : α × DState)
    (h : pureE a st = Except.ok r) : r = (a, st) := (Except.ok.inj h).symm

theorem decodeStep_ok_inv (img : Image) (st : DState) (res : DecRes) (std : DState)
    (h : decodeStep img st = Except.ok (res, std)) :
    std = { st with decoder := std.decoder } := by
  unfold decodeStep at h
  cases hp : pyxed_decode img st.decoder with
  | mk r2 d2 =>
      rw [hp] at h
      dsimp only [] at h
      have h2 := Except.ok.inj h
      have h3 : ({ st with decoder := d2 } : DState) = std := congrArg Prod.snd h2
      rw [← h3]

/-- The probe loop of _do_linear_sweep_disassembly touches nothing but the
decoder cursor: shadow memory, xref graphs, basic blocks and CFG of the
result state are those of the input state. -/
theorem probeLoop_frame (img : Image) :
    ∀ (fuel : Nat) (insns : List Instr) (st : DState)
      (r : (Bool × List Instr) × DState),
      probeLoop img fuel insns st = Except.ok r →
      r.2 = { st with decoder := r.2.decoder } := by
  intro fuel
  induction fuel with
  | zero => intro insns st r h; cases h
  | succ n ih =>
      intro insns st r h
      have h0 : bindE (decodeStep img st) (fun res st =>
          match res with
          | DecRes.errInvalidInstruction => pureE (true, insns) st
          | DecRes.errInvalidOffset => pureE (true, insns) st
          | DecRes.eof => pureE (false, insns) st
          | DecRes.insn insn =>
              if insn.category = XedCategory.INVALID then pureE (true, insns) st
              else
                let insns := insns ++ [insn]
                bindE (queryShadow (fun sm =>
                    is_marked_as_data sm insn.runtime_address insn.length) st)
                  fun dataCount st =>
                if dataCount ≠ 0 then pureE (true, insns) st
                else
                  let displacement := get_branch_displacement insn
                  if displacement ≠ 0 ∧ ¬ is_memory_executable img displacement then
                    pureE (true, insns) st
                  else if insn.category = XedCategory.UNCOND_BR ∨
                      insn.category = XedCategory.RET then
                    pureE (false, insns) st
                  else
                    probeLoop img n insns st) = Except.ok r := h
      obtain ⟨res, std, hdec, h2⟩ := bindE_ok_inv _ _ _ h0
      have hstd := decodeStep_ok_inv img st res std hdec
      have hdone : ∀ (v : Bool × List Instr), pureE v std = Except.ok r →
          r.2 = { st with decoder := r.2.decoder } := by
        intro v hp
        have hr := pureE_ok_inv v std r hp
        rw [show r.2 = std from congrArg Prod.snd hr, hstd]
      cases res with
      | errInvalidInstruction => exact hdone _ h2
      | errInvalidOffset => exact hdone _ h2
      | eof => exact hdone _ h2
      | insn insn =>
          dsimp only [] at h2
          by_cases hcat : insn.category = XedCategory.INVALID
          · rw [if_pos hcat] at h2
            exact hdone _ h2
          · rw [if_neg hcat] at h2
            obtain ⟨cnt, stq, hq, h3⟩ := bindE_ok_inv _ _ _ h2
            obtain ⟨hstq, -⟩ := queryShadow_ok _ _ _ _ hq
            subst hstq
            have hdone2 : ∀ (v : Bool × List Instr), pureE v stq = Except.ok r →
                r.2 = { st with decoder := r.2.decoder } := hdone
            by_cases hcnt : cnt ≠ 0
            · rw [if_pos hcnt] at h3
              exact hdone2 _ h3
            · rw [if_neg hcnt] at h3
              by_cases hdisp : get_branch_displacement insn ≠ 0 ∧
                  ¬ is_memory_executable img (get_branch_displacement insn) = true
              · rw [if_pos hdisp] at h3
                exact hdone2 _ h3
              · rw [if_neg hdisp] at h3
                by_cases hbr : insn.category = XedCategory.UNCOND_BR ∨
                    insn.category = XedCategory.RET
                · rw [if_pos hbr] at h3
                  exact hdone2 _ h3
                · rw [if_neg hbr] at h3
                  have hr := ih (insns ++ [insn]) stq r h3
                  rw [hr, hstd]

/-- C9 (confirmed): whenever _do_linear_sweep_disassembly returns, the
engine state — decoder cursor included — equals the state on entry (the
decoder is saved before and restored after the probe, and the probe
itself touches nothing else), and the returned verdict is the negated
error flag of the probe refined by the classifier: false on any probe
error, and exactly Classifier.is_code on the collected instruction list
after a clean stop. -/
theorem C9_linear_sweep_frame_and_classifier
    (img : Image) (fuel : Nat) (address : Int) (st : DState)
    (sec : Section) (std st1 : DState) (e : Bool) (insns : List Instr)
    (r : Bool) (st2 : DState)
    (hsec : get_section_for_address_range img address = some sec)
    (hset : setDecoderFor sec address st = Except.ok ((), std))
    (hprobe : probeLoop img fuel [] std = Except.ok ((e, insns), st1))
    (h : _do_linear_sweep_disassembly img fuel address st = Except.ok (r, st2)) :
    st2 = st ∧
    r = (!e && (Classifier.mk CLASSIFIER_NAIVE).is_code insns) := by
  unfold _do_linear_sweep_disassembly at h
  rw [hsec] at h
  obtain ⟨u, stdd, hset2, h2⟩ := bindE_ok_inv _ _ _ h
  rw [hset] at hset2
  have hstd : std = stdd := congrArg Prod.snd (Except.ok.inj hset2)
  rw [← hstd] at h2
  obtain ⟨p, st1b, hprobe2, h3⟩ := bindE_ok_inv _ _ _ h2
  rw [hprobe] at hprobe2
  have hinj := Except.ok.inj hprobe2
  have hp : p = (e, insns) := (congrArg Prod.fst hinj).symm
  have hst1 : st1b = st1 := (congrArg Prod.snd hinj).symm
  subst hp
  subst hst1
  dsimp only [] at h3
  have h4 := Except.ok.inj h3
  have hr : r = !(if e = true then e
      else (Classifier.mk CLASSIFIER_NAIVE).is_data insns) :=
    (congrArg Prod.fst h4).symm
  have hst2 : st2 = { st1b with decoder := st.decoder } :=
    (congrArg Prod.snd h4).symm
  have hframe : st1b = { std with decoder := st1b.decoder } :=
    probeLoop_frame img fuel [] std ((e, insns), st1b) hprobe
  have hrec : std = { st with decoder :=
      { itextLen := sec.data.length,
        itext_offset := address - sec.start_address,
        runtime_address := sec.start_address } } :=
    (congrArg Prod.snd (Except.ok.inj hset)).symm
  constructor
  · rw [hst2, hframe, hrec]
  · rw [hr]
    cases e with
    | false => simp [Classifier.is_data]
    | true => simp

theorem C9_witness :
    (initState c10img) = (initState c10img) ∧
    true = (!false && (Classifier.mk CLASSIFIER_NAIVE).is_code ([] : List Instr)) :=
  C9_linear_sweep_frame_and_classifier c10img 10 0x1008 (initState c10img)
    secC10 c10prep c10prep false [] true (initState c10img)
    rfl rfl rfl rfl

theorem get_instruction_frame (img : Image) (address : Int) (st : DState)
    (r : Option Instr) (st2 : DState)
    (h : get_instruction img address st = Except.ok (r, st2)) :
    st2 = { st with decoder := st2.decoder } := by
  unfold get_instruction at h
  obtain ⟨code, stq, hq, h2⟩ := bindE_ok_inv _ _ _ h
  obtain ⟨hstq, -⟩ := queryShadow_ok _ _ _ _ hq
  rw [hstq] at h2
  have hfin0 : ∀ (v : Option Instr) (sb : DState),
      sb = { st with decoder := sb.decoder } →
      pureE v sb = Except.ok (r, st2) →
      st2 = { st with decoder := st2.decoder } := by
    intro v sb hsb hp
    have hr := pureE_ok_inv v sb (r, st2) hp
    have h5 : st2 = sb := congrArg Prod.snd hr
    rw [h5, hsb]
  by_cases hcode : code ≠ 0
  · rw [if_pos hcode] at h2
    obtain ⟨head, stq2, hq2, h3⟩ := bindE_ok_inv _ _ _ h2
    obtain ⟨hstq2, -⟩ := queryShadow_ok _ _ _ _ hq2
    rw [hstq2] at h3
    by_cases hhead : head = true
    · rw [if_pos hhead] at h3
      cases hsec : get_section_for_address_range img address with
      | none => rw [hsec] at h3; exact absurd h3 (by simp)
      | some sec =>
          rw [hsec] at h3
          dsimp only [] at h3
          obtain ⟨u, std, hset, h4⟩ := bindE_ok_inv _ _ _ h3
          have hstd : std = { st with decoder :=
              { itextLen := sec.data.length,
                itext_offset := address - sec.start_address,
                runtime_address := sec.start_address } } :=
            (congrArg Prod.snd (Except.ok.inj hset)).symm
          obtain ⟨res, std2, hdec, h5⟩ := bindE_ok_inv _ _ _ h4
          have hstd2 := decodeStep_ok_inv img std res std2 hdec
          have hsb : std2 = { st with decoder := std2.decoder } := by
            rw [hstd2, hstd]
          cases res with
          | insn i => exact hfin0 _ _ hsb h5
          | eof => exact hfin0 _ _ hsb h5
          | errInvalidInstruction => exact hfin0 _ _ hsb h5
          | errInvalidOffset => exact hfin0 _ _ hsb h5
    · rw [if_neg hhead] at h3
      exact hfin0 _ _ (by rfl) h3
  · rw [if_neg hcode] at h2
    exact hfin0 _ _ (by rfl) h2

/-- The successor loop of _build_cfg changes only the CFG, and every edge
it adds goes from the block start to a successor that is a basic block
leader and is NOT marked FUNCTION — this branch carries the
not-FUNCTION guard. -/
theorem cfgSuccLoop_spec (bs : Int) :
    ∀ (succs : List Int) (st st2 : DState),
      cfgSuccLoop bs succs st = Except.ok ((), st2) →
      st2 = { st with cfg := st2.cfg } ∧
      ∀ x : Int × Int, edgeMem st2.cfg x = true →
        edgeMem st.cfg x = true ∨
        (x.1 = bs ∧ isMarkedB st.shadow x.2 M_BASIC_BLOCK_LEADER = true ∧
          isMarkedB st.shadow x.2 M_FUNCTION = false) := by
  intro succs
  induction succs with
  | nil =>
      intro st st2 h
      have h2 : st2 = st :=
        congrArg Prod.snd (pureE_ok_inv () st ((), st2) h)
      subst h2
      exact ⟨rfl, fun x hx => Or.inl hx⟩
  | cons successor rest ih =>
      intro st st2 h
      have h0 : bindE
          (queryShadow (fun sm =>
            is_marked_as_basic_block_leader sm successor) st)
          (fun leader st =>
            bindE
              (if leader then
                bindE (queryShadow (fun sm => is_marked_as_function sm successor) st)
                  fun f st =>
                if !f then modifyCfg (fun g => add_edge g (bs, successor)) st
                else pureE () st
              else pureE () st) fun _ st =>
            cfgSuccLoop bs rest st) = Except.ok ((), st2) := h
      obtain ⟨leader, stq, hq, h2⟩ := bindE_ok_inv _ _ _ h0
      obtain ⟨hstq, hlv⟩ := queryShadow_ok _ _ _ _ hq
      rw [hstq] at h2
      obtain ⟨u, stm, hstep, hrest⟩ := bindE_ok_inv _ _ _ h2
      obtain ⟨hframe, hchar⟩ := ih stm st2 hrest
      have hstepres : stm = { st with cfg := stm.cfg } ∧
          ∀ x : Int × Int, edgeMem stm.cfg x = true →
            edgeMem st.cfg x = true ∨
            (x.1 = bs ∧ isMarkedB st.shadow x.2 M_BASIC_BLOCK_LEADER = true ∧
              isMarkedB st.shadow x.2 M_FUNCTION = false) := by
        by_cases hl : leader = true
        · rw [if_pos hl] at hstep
          obtain ⟨f, stq2, hq2, h3⟩ := bindE_ok_inv _ _ _ hstep
          obtain ⟨hstq2, hfv⟩ := queryShadow_ok _ _ _ _ hq2
          rw [hstq2] at h3
          by_cases hf : (!f) = true
          · rw [if_pos hf] at h3
            have hstm : stm = { st with cfg := add_edge st.cfg (bs, successor) } :=
              (congrArg Prod.snd (Except.ok.inj h3)).symm
            refine ⟨by rw [hstm], ?_⟩
            intro x hx
            rw [hstm] at hx
            rcases (edgeMem_add_edge st.cfg (bs, successor) x).mp hx with hxe | hold
            · right
              refine ⟨by rw [hxe], ?_, ?_⟩
              · have hx2 : x.2 = successor := by rw [hxe]
                rw [hx2]
                have hq3 : _is_marked st.shadow successor
                    M_BASIC_BLOCK_LEADER = some leader := hlv
                show (_is_marked st.shadow successor
                  M_BASIC_BLOCK_LEADER).getD false = true
                rw [hq3, hl]
                rfl
              · have hx2 : x.2 = successor := by rw [hxe]
                rw [hx2]
                have hq4 : _is_marked st.shadow successor M_FUNCTION = some f := hfv
                show (_is_marked st.shadow successor M_FUNCTION).getD false = false
                rw [hq4]
                have hf2 : f = false := by
                  cases f with
                  | false => rfl
                  | true => exact absurd hf (by simp)
                rw [hf2]
                rfl
            · exact Or.inl hold
          · rw [if_neg hf] at h3
            have hstm : stm = st :=
              congrArg Prod.snd (pureE_ok_inv () st ((), stm) h3)
            subst hstm
            exact ⟨rfl, fun x hx => Or.inl hx⟩
        · rw [if_neg hl] at hstep
          have hstm : stm = st :=
            congrArg Prod.snd (pureE_ok_inv () st ((), stm) hstep)
          subst hstm
          exact ⟨rfl, fun x hx => Or.inl hx⟩
      obtain ⟨hstm_frame, hstm_char⟩ := hstepres
      constructor
      · rw [hframe, hstm_frame]
      · intro x hx
        rcases hchar x hx with hmid | hguard
        · exact hstm_char x hmid
        · right
          have hsh : stm.shadow = st.shadow := by rw [hstm_frame]
          rw [hsh] at hguard
          exact hguard

/-- The block loop of _build_cfg: the shadow memory is untouched, and every
CFG edge after it is an old edge, a guarded branch edge (target a basic
block leader that is not FUNCTION-marked), or a physical fall-through
edge (block start to block end) of some listed block — the latter with NO
not-FUNCTION check. -/
theorem cfgBlockLoop_spec (img : Image) :
    ∀ (blocks : List (Int × BasicBlock)) (st st2 : DState),
      cfgBlockLoop img blocks st = Except.ok ((), st2) →
      st2.shadow = st.shadow ∧
      ∀ x : Int × Int, edgeMem st2.cfg x = true →
        edgeMem st.cfg x = true ∨
        (isMarkedB st.shadow x.2 M_BASIC_BLOCK_LEADER = true ∧
          isMarkedB st.shadow x.2 M_FUNCTION = false) ∨
        (∃ b ∈ blocks, x.1 = b.2.start_address ∧ x.2 = b.2.end_address) := by
  intro blocks
  induction blocks with
  | nil =>
      intro st st2 h
      have h2 : st2 = st :=
        congrArg Prod.snd (pureE_ok_inv () st ((), st2) h)
      subst h2
      exact ⟨rfl, fun x hx => Or.inl hx⟩
  | cons hd rest ih =>
      intro st st2 h
      obtain ⟨k, block⟩ := hd
      have h0 : (if block.start_address ∈ img.exit_points then
          cfgBlockLoop img rest st
        else
          match block.instructions.getLast? with
          | none => Except.error EngineErr.internalError
          | some address =>
              bindE (get_instruction img address st) fun insn? st =>
              match insn? with
              | none => Except.error EngineErr.internalError
              | some insn =>
                  bindE
                    (if insn.writesPC then
                      cfgSuccLoop block.start_address
                        (get_successors st.code_xrefs address) st
                    else
                      modifyCfg (fun g =>
                        add_edge g (block.start_address, block.end_address)) st)
                    fun _ st =>
                  cfgBlockLoop img rest st) = Except.ok ((), st2) := h
      by_cases hexit : block.start_address ∈ img.exit_points
      · rw [if_pos hexit] at h0
        obtain ⟨hsh, hchar⟩ := ih st st2 h0
        refine ⟨hsh, fun x hx => ?_⟩
        rcases hchar x hx with h1 | h1 | ⟨b, hb, he⟩
        · exact Or.inl h1
        · exact Or.inr (Or.inl h1)
        · exact Or.inr (Or.inr ⟨b, List.mem_cons_of_mem _ hb, he⟩)
      · rw [if_neg hexit] at h0
        cases hlast : block.instructions.getLast? with
        | none => rw [hlast] at h0; exact absurd h0 (by simp)
        | some address =>
            rw [hlast] at h0
            dsimp only [] at h0
            obtain ⟨insn?, stg, hget, h2⟩ := bindE_ok_inv _ _ _ h0
            have hstg := get_instruction_frame img address st insn? stg hget
            have hstgsh : stg.shadow = st.shadow := by rw [hstg]
            have hstgcfg : stg.cfg = st.cfg := by rw [hstg]
            cases insn? with
            | none => dsimp only [] at h2; exact absurd h2 (by simp)
            | some insn =>
                dsimp only [] at h2
                obtain ⟨u, stm, hstep, hrest⟩ := bindE_ok_inv _ _ _ h2
                obtain ⟨hsh2, hchar2⟩ := ih stm st2 hrest
                by_cases hw : insn.writesPC = true
                · rw [if_pos hw] at hstep
                  obtain ⟨hfr, hch⟩ := cfgSuccLoop_spec block.start_address
                    (get_successors stg.code_xrefs address) stg stm hstep
                  have hstmsh : stm.shadow = st.shadow := by
                    rw [hfr]
                    exact hstgsh
                  refine ⟨hsh2.trans hstmsh, fun x hx => ?_⟩
                  rcases hchar2 x hx with h1 | h1 | h1
                  · rcases hch x h1 with h2a | ⟨hxbs, hlead, hfun⟩
                    · rw [hstgcfg] at h2a
                      exact Or.inl h2a
                    · rw [hstgsh] at hlead hfun
                      exact Or.inr (Or.inl ⟨hlead, hfun⟩)
                  · rw [hstmsh] at h1
                    exact Or.inr (Or.inl h1)
                  · obtain ⟨b, hb, he⟩ := h1
                    exact Or.inr (Or.inr ⟨b, List.mem_cons_of_mem _ hb, he⟩)
                · rw [if_neg hw] at hstep
                  have hstm :
                      stm = { stg with
                        cfg := add_edge stg.cfg
                          (block.start_address, block.end_address) } :=
                    (congrArg Prod.snd (Except.ok.inj hstep)).symm
                  have hstmsh : stm.shadow = st.shadow := by
                    rw [hstm]
                    exact hstgsh
                  refine ⟨hsh2.trans hstmsh, fun x hx => ?_⟩
                  rcases hchar2 x hx with h1 | h1 | h1
                  · rw [hstm] at h1
                    rcases (edgeMem_add_edge stg.cfg
                        (block.start_address, block.end_address) x).mp h1 with
                      hxe | hold
                    · refine Or.inr (Or.inr ⟨(k, block),
                        List.mem_cons_self _ _, by rw [hxe], by rw [hxe]⟩)
                    · rw [hstgcfg] at hold
                      exact Or.inl hold
                  · rw [hstmsh] at h1
                    exact Or.inr (Or.inl h1)
                  · obtain ⟨b, hb, he⟩ := h1
                    exact Or.inr (Or.inr ⟨b, List.mem_cons_of_mem _ hb, he⟩)

/-- C2 (corrected, amended): after _build_cfg, every CFG edge (u, v) is
either a pre-existing edge, or a branch edge added under the guard "v is
a basic block leader and v is NOT marked FUNCTION", or a physical
fall-through edge (B.start, B.end) of a listed basic block — and that
third kind carries NO not-FUNCTION guard, so an edge into a
FUNCTION-marked vertex can exist (see the counterexample). -/
theorem C2A_cfg_edges_guarded_or_fallthrough (img : Image) (st st2 : DState)
    (h : _build_cfg img st = Except.ok ((), st2)) :
    ∀ x : Int × Int, edgeMem st2.cfg x = true →
      edgeMem st.cfg x = true ∨
      (isMarkedB st.shadow x.2 M_BASIC_BLOCK_LEADER = true ∧
        isMarkedB st.shadow x.2 M_FUNCTION = false) ∨
      (∃ b ∈ st.basic_blocks, x.1 = b.2.start_address ∧ x.2 = b.2.end_address) :=
  (cfgBlockLoop_spec img st.basic_blocks st st2 h).2

def c2aBlock : BasicBlock :=
  { start_address := 0x1000, end_address := 0x1001, instructions := [0x1000] }

def c2aSt : DState :=
  { initState c2img with
    shadow := (mark_as_code (initState c2img).shadow 0x1000 1).getD
      (initState c2img).shadow,
    basic_blocks := [(0x1000, c2aBlock)] }

def c2aSt2 : DState :=
  match _build_cfg c2img c2aSt with
  | Except.ok (_, st) => st
  | Except.error _ => c2aSt

theorem C2A_witness :
    edgeMem c2aSt.cfg (0x1000, 0x1001) = true ∨
    (isMarkedB c2aSt.shadow 0x1001 M_BASIC_BLOCK_LEADER = true ∧
      isMarkedB c2aSt.shadow 0x1001 M_FUNCTION = false) ∨
    (∃ b ∈ c2aSt.basic_blocks, (0x1000 : Int) = b.2.start_address ∧
      (0x1001 : Int) = b.2.end_address) :=
  C2A_cfg_edges_guarded_or_fallthrough c2img c2aSt c2aSt2 rfl
    (0x1000, 0x1001) (by rfl)
